import Mathlib

/-!
# Verification of the CodingGym grading pipeline scheduler

Shallow embedding of `src/data_structure/Jobs.py`, `src/data_structure/PriorityQueue.py`
and the relevant parts of `src/bot.py`.

Conventions of the embedding:
* Python `int` is `Int`; Python `float` arithmetic is modelled by exact rationals `ℚ`.
* A Python function that can raise is `Except PyErr _`; an uncaught exception is `.error`.
  When an exception is raised the model returns only the error: in-place mutations that
  happened before the raise are dropped (no claim below depends on the partially
  mutated state of a raising call).
* External effects (database rows, subprocess output, the OpenAI reply, regex match
  results for the `banned` patterns, the IPC peer) are oracle parameters.
-/

set_option linter.unusedVariables false

/-- Python exception kinds that appear in the modelled code paths. -/
inductive PyErr where
  | typeError
  | indexError
  | eofError
  | unpicklingError
  | zeroDivisionError
  deriving DecidableEq, Repr

/-- The `Job` value object of `src/data_structure/Jobs.py`, including every field set
by `Job.__init__`. The extra field `oid` models CPython object identity, which is what
`==` and tuple comparison fall back to for `Job` values (the class defines neither
`__eq__` nor `__lt__`). `abstraction_score` (a Python `float`) is modelled as `ℚ`. -/
structure Job where
  oid : Nat
  id_exec : Int
  category : String
  id_user : Int
  path : String
  project_type : Option String := none
  broken : Bool := false
  text_content : String := ""
  gpt_content : String := ""
  java_file : List String := []
  abstraction_score : Option ℚ := none
  banned_found : Option (List String) := none
  deriving DecidableEq, Repr

/-- A heap entry: the `(priority, job)` tuple pushed by `PriorityQueue.add_job`. -/
abbrev Entry := Int × Job

/-- Junk default entry used for out-of-range `getD` reads; the algorithms below only
ever read in-range positions. -/
def dE : Entry := (0, { oid := 0, id_exec := 0, category := "", id_user := 0, path := "" })

/-- CPython comparison `a < b` on `(priority, Job)` tuples.  Tuples compare
lexicographically: unequal priorities decide; equal priorities fall back to the `Job`
components, which are compared by identity for `==` and raise `TypeError` for `<`
because `Job` defines no ordering.  (Identical objects compare equal, so the tuple
comparison returns `False` without reaching `<`.) -/
def pyLt (a b : Entry) : Except PyErr Bool :=
  if a.1 ≠ b.1 then .ok (decide (a.1 < b.1))
  else if a.2.oid = b.2.oid then .ok false
  else .error .typeError

/-- Loop of CPython `heapq._siftdown(heap, startpos, pos)`: bubble the hole at `pos`
up while `newitem` is smaller than the parent. Returns the list with the moved
parents and the final hole position. -/
def siftdownLoop (startpos : Nat) (newitem : Entry) (heap : List Entry) (pos : Nat) :
    Except PyErr (List Entry × Nat) :=
  if h : startpos < pos then
    match pyLt newitem (heap.getD ((pos - 1) / 2) dE) with
    | .error e => .error e
    | .ok true =>
      siftdownLoop startpos newitem (heap.set pos (heap.getD ((pos - 1) / 2) dE)) ((pos - 1) / 2)
    | .ok false => .ok (heap, pos)
  else .ok (heap, pos)
termination_by pos
decreasing_by
  have := Nat.div_le_self (pos - 1) 2
  omega

/-- CPython `heapq._siftdown(heap, startpos, pos)`. -/
def pySiftdown (heap : List Entry) (startpos pos : Nat) : Except PyErr (List Entry) :=
  let newitem := heap.getD pos dE
  (siftdownLoop startpos newitem heap pos).map fun hp => hp.1.set hp.2 newitem

/-- Loop of CPython `heapq._siftup(heap, pos)`: move the hole at `pos` down to a leaf,
always descending to the smaller child. -/
def siftupLoop (endpos : Nat) (heap : List Entry) (pos : Nat) :
    Except PyErr (List Entry × Nat) :=
  if h : 2 * pos + 1 < endpos then
    if h2 : 2 * pos + 2 < endpos then
      match pyLt (heap.getD (2 * pos + 1) dE) (heap.getD (2 * pos + 2) dE) with
      | .error e => .error e
      | .ok true => siftupLoop endpos (heap.set pos (heap.getD (2 * pos + 1) dE)) (2 * pos + 1)
      | .ok false => siftupLoop endpos (heap.set pos (heap.getD (2 * pos + 2) dE)) (2 * pos + 2)
    else siftupLoop endpos (heap.set pos (heap.getD (2 * pos + 1) dE)) (2 * pos + 1)
  else .ok (heap, pos)
termination_by endpos - pos
decreasing_by
  · omega
  · omega
  · omega

/-- CPython `heapq._siftup(heap, pos)`: move the hole to a leaf, place `newitem`
there, then `_siftdown` back up from the original position. -/
def pySiftup (heap : List Entry) (pos : Nat) : Except PyErr (List Entry) :=
  let newitem := heap.getD pos dE
  match siftupLoop heap.length heap pos with
  | .error e => .error e
  | .ok (h, p) => pySiftdown (h.set p newitem) pos p

/-- CPython `heapq.heappush(heap, item)`. -/
def heappush (heap : List Entry) (item : Entry) : Except PyErr (List Entry) :=
  pySiftdown (heap ++ [item]) 0 heap.length

/-- CPython `heapq.heappop(heap)`: pop the last element; if the heap is still
nonempty, move it to the root and sift up, returning the old root. -/
def heappop (heap : List Entry) : Except PyErr (Entry × List Entry) :=
  match heap with
  | [] => .error .indexError
  | _ :: _ =>
    let lastelt := heap.getLastD dE
    let rest := heap.dropLast
    if rest.isEmpty then .ok (lastelt, rest)
    else
      let returnitem := rest.getD 0 dE
      (pySiftup (rest.set 0 lastelt) 0).map fun h => (returnitem, h)

/-- The `PriorityQueue` wrapper class: a bare list managed with `heapq`. -/
structure PriorityQueue where
  _queue : List Entry := []
  deriving DecidableEq, Repr

/-- `PriorityQueue.add_job`: `heapq.heappush(self._queue, (priority, job))`. -/
def PriorityQueue.add_job (q : PriorityQueue) (job : Job) (priority : Int) :
    Except PyErr PriorityQueue :=
  (heappush q._queue (priority, job)).map fun l => { _queue := l }

/-- `PriorityQueue.get_next_job`: pop the heap root if nonempty, else `None`. -/
def PriorityQueue.get_next_job (q : PriorityQueue) :
    Except PyErr (Option Job × PriorityQueue) :=
  match q._queue with
  | [] => .ok (none, q)
  | _ :: _ => (heappop q._queue).map fun er => (some er.1.2, { _queue := er.2 })

/-- `PriorityQueue.get_length`. -/
def PriorityQueue.get_length (q : PriorityQueue) : Nat := q._queue.length

/-- Python list subscription `l[i]` with an `int` index: non-negative indices are
absolute, negative indices count from the end, anything else raises `IndexError`.
Returns the normalised non-negative position. -/
def pyIndex (len : Nat) (i : Int) : Except PyErr Nat :=
  if 0 ≤ i ∧ i < (len : Int) then .ok i.toNat
  else if -(len : Int) ≤ i ∧ i < 0 then .ok (i + len).toNat
  else .error .indexError

/-- The `StepQueue` class state: one `PriorityQueue` per pipeline step plus the two
wake/pause flags (`pause` for the normal pool, `pause_done` for the done-queues
workers).  The lock only serialises access and has no observable effect on the
sequential semantics modelled here. -/
structure StepQueue where
  _queues : List PriorityQueue
  pause : Bool := false
  pause_done : Bool := false
  deriving DecidableEq, Repr

/-- `StepQueue.add_job(step, job, priority=5)`: `self._queues[step].add_job(job,
priority)` followed by clearing both pause flags.  There is no explicit bounds
check: the Python subscription itself decides (negative indices wrap, far
out-of-range raises `IndexError` before any queue is touched or any flag cleared). -/
def StepQueue.add_job (sq : StepQueue) (step : Int) (job : Job) (priority : Int := 5) :
    Except PyErr StepQueue :=
  match pyIndex sq._queues.length step with
  | .error e => .error e
  | .ok idx =>
    match (sq._queues.getD idx { }).add_job job priority with
    | .error e => .error e
    | .ok q' => .ok { _queues := sq._queues.set idx q', pause := false, pause_done := false }

/-- Loop body of the stage selection in `StepQueue.get_next_job` when `step is None`:
`larger = 0; for i, val in enumerate(lengths): if val > larger: larger = val; step = i`.
`vals` are the lengths still to scan, `i` the index of the first of them. -/
def selectLoop : List Nat → Nat → Nat → Option Nat → Option Nat
  | [], _, _, best => best
  | v :: rest, i, larger, best =>
    if larger < v then selectLoop rest (i + 1) v (some i)
    else selectLoop rest (i + 1) larger best

/-- Stage selection of `StepQueue.get_next_job`: scan the queues `self._queues[:-2]`
(everything but the two done queues) and keep the first index of strictly maximal
length; `None` when they are all empty. -/
def selectStep (qs : List PriorityQueue) : Option Nat :=
  selectLoop ((qs.take (qs.length - 2)).map PriorityQueue.get_length) 0 0 none

/-- The tail of `StepQueue.get_next_job` once a step value is in hand: subscript
`self._queues[step]`, pop it, return `(step, job)`; an empty queue sets `pause` and
returns `None`.  The Python method returns the `step` value it was given. -/
def StepQueue.popAt (sq : StepQueue) (s : Int) :
    Except PyErr (Option (Int × Job) × StepQueue) :=
  match pyIndex sq._queues.length s with
  | .error e => .error e
  | .ok idx =>
    match (sq._queues.getD idx { }).get_next_job with
    | .error e => .error e
    | .ok (none, _) => .ok (none, { sq with pause := true })
    | .ok (some job, q') =>
      .ok (some (s, job), { sq with _queues := sq._queues.set idx q' })

/-- `StepQueue.get_next_job(step=None)`: with no explicit step, pick the non-done
queue with the most jobs (`selectStep`); if none, set `pause` and return `None`.
Otherwise pop the chosen queue (an explicitly passed step is *not* bounds checked
against the non-done range). -/
def StepQueue.get_next_job (sq : StepQueue) (step : Option Int := none) :
    Except PyErr (Option (Int × Job) × StepQueue) :=
  match step with
  | some s => sq.popAt s
  | none =>
    match selectStep sq._queues with
    | none => .ok (none, { sq with pause := true })
    | some n => sq.popAt (n : Int)

/-- `StepQueue.get_done_job(step)`: subscript `self._queues[step]` and pop it. The
method performs no check that `step` designates one of the two done queues; an empty
queue sets `pause_done` and returns `None`. -/
def StepQueue.get_done_job (sq : StepQueue) (step : Int) :
    Except PyErr (Option (Int × Job) × StepQueue) :=
  match pyIndex sq._queues.length step with
  | .error e => .error e
  | .ok idx =>
    match (sq._queues.getD idx { }).get_next_job with
    | .error e => .error e
    | .ok (none, _) => .ok (none, { sq with pause_done := true })
    | .ok (some job, q') =>
      .ok (some (step, job), { sq with _queues := sq._queues.set idx q' })

/-- What `pickle.load` on the snapshot file can do: produce a `StepQueue`-shaped
value (its queues) or raise some exception (`EOFError` on a truncated file,
`UnpicklingError`/others on corrupt data). -/
inductive PickleOutcome where
  | loaded (queues : List PriorityQueue)
  | raises (e : PyErr)
  deriving DecidableEq, Repr

/-- The snapshot file as `StepQueue.restore` observes it: absent, or present with a
given unpickling outcome. -/
inductive SnapshotFile where
  | absent
  | present (outcome : PickleOutcome)
  deriving DecidableEq, Repr

/-- `StepQueue.restore()`: if the snapshot file exists, unpickle it and adopt its
queues via `set_queues`; the only exception handled is `EOFError` — anything else
raised by `pickle.load` propagates.  An absent file just logs. -/
def StepQueue.restore (sq : StepQueue) (file : SnapshotFile) : Except PyErr StepQueue :=
  match file with
  | .absent => .ok sq
  | .present (.loaded qs) => .ok { sq with _queues := qs }
  | .present (.raises e) => if e = .eofError then .ok sq else .error e

/-- `StepQueue.__init__(steps)` for an `int` argument: build `steps` empty queues,
clear both flags, then call `restore()`. -/
def StepQueue.init (steps : Nat) (file : SnapshotFile) : Except PyErr StepQueue :=
  StepQueue.restore { _queues := List.replicate steps { } } file

/-- A word character in the sense of the regex `\w`: alphanumeric or underscore. -/
def wordChar (c : Char) : Bool := c.isAlphanum || c = '_'

/-- Case-insensitive character equality, as `re.IGNORECASE` applies it to the
escaped literal pattern. -/
def lcEq (a b : Char) : Bool := a.toLower = b.toLower

/-- `lcPre pat t`: the pattern matches case-insensitively at the head of `t`. -/
def lcPre : List Char → List Char → Bool
  | [], _ => true
  | _ :: _, [] => false
  | p :: ps, t :: ts => lcEq p t && lcPre ps ts

/-- One candidate position of the pattern
`(?<!\w)`‹escaped literal›`(?!\w)` from `compare_results`: the literal matches
case-insensitively at `i`, the character before `i` (if any) is not a word
character, and neither is the character right after the matched span. -/
def bMatch (text pat : List Char) (i : Nat) : Bool :=
  lcPre pat (text.drop i)
    && (decide (i = 0) || !wordChar (text.getD (i - 1) '_'))
    && (decide (text.length ≤ i + pat.length) || !wordChar (text.getD (i + pat.length) '_'))

/-- `re.search` scan for the pattern above: try start positions `i`, `i+1`, … up to
and including `text.length`, returning the first hit. -/
def searchFrom (text pat : List Char) (i : Nat) : Option Nat :=
  if h : i ≤ text.length then
    if bMatch text pat i then some i else searchFrom text pat (i + 1)
  else none
termination_by text.length + 1 - i

/-- `re.search(fr"(?<!\w){re.escape(line)}(?!\w)", text, re.IGNORECASE)`, returning
the match start. -/
def reSearch (text pat : List Char) : Option Nat := searchFrom text pat 0

/-- The loop of `compare_results`: for each expected value in order, find it and cut
the matched span out of the text (`text[:i] + text[i+len(line):]`); fail on the
first value not found. -/
def compareGo : List String → List Char → Bool
  | [], _ => true
  | e :: rest, text =>
    match reSearch text e.data with
    | none => false
    | some i => compareGo rest (text.take i ++ text.drop (i + e.data.length))

/-- `compare_results(expected, obtained_lines)` from `src/bot.py`: join the obtained
lines with newlines and run the find-and-consume loop.  (`line = str(line)` is the
identity here because the expected values are modelled as strings.) -/
def compare_results (expected : List String) (obtained_lines : List String) : Bool :=
  compareGo expected (String.intercalate "\n" obtained_lines).data

/-- Modelled from the spec's matching rule, for the refinement proof of
`compare_results`: each expected value in order must have a first (leftmost)
case-insensitive word-boundary match in the remaining text, which is then consumed
before the next expected value is searched. -/
def SpecConsume : List String → List Char → Prop
  | [], _ => True
  | e :: rest, text =>
    ∃ i, bMatch text e.data i = true ∧ (∀ j, j < i → bMatch text e.data j = false) ∧
      SpecConsume rest (text.take i ++ text.drop (i + e.data.length))

/-- Python string slice `s[-n:]`. -/
def pyLastChars (n : Nat) (s : String) : String :=
  String.mk (s.data.drop (s.data.length - n))

/-- Python `str.removeprefix`. -/
def pyDropPre (s pre : String) : String :=
  if pre.data.isPrefixOf s.data then String.mk (s.data.drop pre.data.length) else s

/-- Oracle facts for `generate_project_files`: whether the global `db` handle failed
to initialise (`db is None`).  The database fetch and archive unpacking either
succeed without touching the job, or raise — a raise leaves the job unchanged, so it
is not modelled separately here. -/
structure GenEnv where
  dbIsNone : Bool
  deriving DecidableEq, Repr

/-- `generate_project_files(job)`: directory bookkeeping, then the db fetch.  With
`db is None` the job is marked broken and the function returns `False`; otherwise the
exercise archive is written and unpacked and it returns `True`. -/
def generate_project_files (env : GenEnv) (job : Job) : Job × Bool :=
  if env.dbIsNone then ({ job with broken := true }, false) else (job, true)

/-- Oracle facts for `compilation_test`: the recursive `*.java` glob, presence of
`build.xml` / `pom.xml` anywhere under the user directory, and the
`(status, combined output)` of the spawned build command. -/
structure CompEnv where
  javaFiles : List String
  hasBuildXml : Bool
  hasPom : Bool
  compile : Bool × String
  deriving DecidableEq, Repr

/-- The Spanish user message of the unknown-project-type branch. -/
def noProjectTypeMsg : String :=
  "No hemos podido determinar el tipo de proyecto.\nAsegúrate de que el proyecto sea de tipo Ant, Maven o un solo archivo Java.\n" ++
  "Si has subido un archivo comprimido, asegúrate de que el directorio raíz del proyecto sea el mismo que el del archivo comprimido."

/-- `compilation_test(job)`: detection precedence `build.xml` → `pom.xml` → exactly
one `.java` file → failure, with the empty-glob check first; the detected kind is
written to `job.project_type` (and the file list to `job.java_file` for single-file
projects) before the build command runs.  Returns the job and `(status, output)`. -/
def compilation_test (env : CompEnv) (job : Job) : Job × (Bool × String) :=
  if env.javaFiles = [] then (job, (false, "No Java files found for compilation."))
  else if env.hasBuildXml then ({ job with project_type := some "Ant" }, env.compile)
  else if env.hasPom then ({ job with project_type := some "Maven" }, env.compile)
  else if env.javaFiles.length = 1 then
    ({ job with project_type := some "Single file", java_file := env.javaFiles }, env.compile)
  else (job, (false, noProjectTypeMsg))

/-- One test case of `job_data/test_cases.json` together with the oracle outcome
`(status, combined output)` of `run_test_case` for it.  The output is `none` exactly
when the child exited non-zero (stderr is merged into stdout, so the returned
`output_err` is `None`). -/
structure TestCase where
  inputs : List String
  outputs : List String
  run : Bool × Option String
  deriving DecidableEq, Repr

/-- The Maven missing-`Main.java` user message. -/
def mavenMainMsg : String :=
  "No se ha encontrado el archivo Main.java." ++
  "Usando Maven, tu método main debe estar en la clase Main, en el archivo Main.java."

/-- The per-case loop of `running_test`: `some (job, code)` when an early `return`
fires, `none` when the loop runs to completion. -/
def runCasesLoop (isAnt : Bool) : List TestCase → Nat → Job → Option (Job × Int)
  | [], _, _ => none
  | tc :: rest, i, job =>
    let result := match tc.run.2 with
      | none => "No se ha obtenido resultado."
      | some r => r
    let result_truncated :=
      if 600 < result.data.length then
        "...[hubo más output aquí arriba]...\n" ++ pyLastChars 600 result
      else pyLastChars 600 result
    let test_input_text := String.intercalate "\n" tc.inputs
    let test_output_text := String.intercalate "\n" tc.outputs
    if tc.run.1 = false then
      if result_truncated = "Timeout" then
        some ({ job with broken := true,
                         text_content := "El programa tardó demasiado en ejecutarse." }, -1)
      else
        some ({ job with broken := true,
                         text_content :=
                           "Input dado: " ++ test_input_text ++ "\n" ++
                           "Output esperado: " ++ test_output_text ++ "\n" ++
                           "Output obtenido: " ++ result_truncated ++ "\n" }, 1)
    else
      let obtained_lines := result.splitOn "\n"
      let obtained_lines :=
        if isAnt then
          (obtained_lines.filter fun l => l.trim.startsWith "[java]").map
            fun l => pyDropPre l "[java]"
        else obtained_lines
      if compare_results tc.outputs obtained_lines = false then
        let obtained_lines_text := String.intercalate "\n" obtained_lines ++
          "\n\n(Deberían haber tantas líneas de output obtenido casi como líneas de input dado y output esperado)"
        let result_truncated₂ :=
          if 600 < obtained_lines_text.data.length then
            "...[hubo más output aquí arriba]...\n" ++ pyLastChars 600 obtained_lines_text
          else pyLastChars 600 obtained_lines_text
        some ({ job with broken := true,
                         text_content :=
                           toString i ++ " pruebas superadas hasta el primer fallo.\n" ++
                           "Input dado: \n" ++ test_input_text ++ "\n" ++
                           "Output esperado: \n" ++ test_output_text ++ "\n" ++
                           "Output obtenido: \n" ++ result_truncated₂ ++ "\n" }, 1)
      else runCasesLoop isAnt rest (i + 1) job

/-- Oracle facts for `running_test`: the parsed `test_cases.json` (with the per-case
subprocess outcomes) and whether the `Main.java` glob came back empty. -/
structure RunEnv where
  cases : List TestCase
  mavenMainMissing : Bool
  deriving DecidableEq, Repr

/-- `running_test(job)`: the Maven `Main.java` check, then the per-case loop, then
the all-passed epilogue.  Returns the job and the status code (0 pass, 1 fail, −1
timeout). -/
def running_test (env : RunEnv) (job : Job) : Job × Int :=
  if job.project_type = some "Maven" ∧ env.mavenMainMissing then
    ({ job with broken := true, text_content := mavenMainMsg }, 1)
  else
    match runCasesLoop (job.project_type = some "Ant") env.cases 0 job with
    | some r => r
    | none =>
      if env.cases.length = 0 then
        ({ job with text_content := "No hay pruebas que superar." }, 0)
      else
        ({ job with text_content :=
            "Todos los test correctos, " ++ toString env.cases.length ++ " en total." }, 0)

/-- Count of `re.findall(re.escape(pat), s)` for a nonempty literal pattern:
non-overlapping left-to-right occurrences. -/
def countOccA (p : List Char) : List Char → Nat
  | [] => 0
  | c :: t =>
    if p.isPrefixOf (c :: t) then 1 + countOccA p (t.drop (p.length - 1))
    else countOccA p t
termination_by l => l.length
decreasing_by
  · simp only [List.length_drop, List.length_cons]
    omega
  · simp

/-- `len(re.findall(re.escape(pat), s))`: literal, case-sensitive, non-overlapping
occurrence count (an empty pattern matches at every gap). -/
def countOcc (pat s : String) : Nat :=
  match pat.data with
  | [] => s.data.length + 1
  | p :: ps => countOccA (p :: ps) s.data

/-- Oracle facts for `abstraction_test`: the parsed `abstraction.json` (`required`
pattern/weight pairs in dict order and the `banned` regex list), the contents of the
recursively globbed `*.java` files, and a truthiness oracle for
`re.search(banned_pattern, total_code)` (the banned patterns are arbitrary regexes,
which the embedding does not interpret). -/
structure AbsEnv where
  required : List (String × Int)
  banned : List String
  javaContents : List String
  research : String → String → Bool

/-- The concatenation of all globbed `*.java` file contents. -/
def AbsEnv.totalCode (env : AbsEnv) : String := String.join env.javaContents

/-- `abstraction_test(job)`: count literal occurrences of each required pattern,
collect the banned regexes that match, and score
`(found_total / required_total) * 100 - 100` (float division, exact here; a zero
`required_total` raises `ZeroDivisionError`). -/
def abstraction_test (env : AbsEnv) (job : Job) : Except PyErr (ℚ × List String) :=
  let total_code := env.totalCode
  let required_found := env.required.map fun kv => (kv.1, countOcc kv.1 total_code)
  let banned_found := env.banned.filter fun v => env.research v total_code
  let required_total := (env.required.map Prod.snd).sum
  let required_found_total := ((required_found.map Prod.snd).sum : Nat)
  if required_total = 0 then .error .zeroDivisionError
  else .ok ((((required_found_total : ℚ) / (required_total : ℚ)) * 100) - 100, banned_found)

/-- Oracle for `chatgpt_consolidation`: `.error` when the OpenAI call raises,
otherwise the (possibly `None`, possibly empty) reply content. -/
structure GptEnv where
  completion : Except Unit (Option String)

/-- `chatgpt_consolidation(job)`: store a non-falsy reply in `job.gpt_content`; any
exception stores the fallback string.  `job.broken` is never written. -/
def chatgpt_consolidation (env : GptEnv) (job : Job) : Job :=
  match env.completion with
  | .error _ => { job with gpt_content := "No se pudo obtener respuesta de ChatGPT" }
  | .ok none => job
  | .ok (some s) => if s = "" then job else { job with gpt_content := s }

/-- All stage-handler oracles, for `process_job`. -/
structure ProcEnv where
  gen : GenEnv
  comp : CompEnv
  run : RunEnv
  abst : AbsEnv
  gpt : GptEnv

/-- The dispatch of `process_job(job, step, sq)` up to (but excluding) the final
`sq.add_job(step, job)`: the mutated job and the step it is re-enqueued at. -/
def process_job_route (env : ProcEnv) (job : Job) (step : Int) : Except PyErr (Job × Int) :=
  if step = 0 then
    if (generate_project_files env.gen job).2 = false then
      .ok ({ (generate_project_files env.gen job).1 with
               broken := true,
               text_content := "No se han podido generar los archivos del proyecto. Si el error persiste, contacta a un administrador." }, 5)
    else .ok ((generate_project_files env.gen job).1, step + 1)
  else if step = 1 then
    if (compilation_test env.comp job).2.1 = false then
      .ok ({ (compilation_test env.comp job).1 with
               broken := true,
               text_content := pyLastChars 1000 (compilation_test env.comp job).2.2 }, 4)
    else .ok ((compilation_test env.comp job).1, step + 1)
  else if step = 2 then
    if (running_test env.run job).2 = 0 then .ok ((running_test env.run job).1, step + 1)
    else if (running_test env.run job).2 = 1 then .ok ((running_test env.run job).1, 4)
    else .ok ((running_test env.run job).1, 5)
  else if step = 3 then
    match abstraction_test env.abst job with
    | .error e => .error e
    | .ok (score, banned) =>
      .ok ({ job with abstraction_score := some score, banned_found := some banned }, step + 2)
  else .ok (job, step)

/-- `process_job(job, step, sq)`: dispatch, then `sq.add_job(step, job)` (default
priority) and `sq.snapshot()` (a pure filesystem effect). -/
def process_job (env : ProcEnv) (job : Job) (step : Int) (sq : StepQueue) :
    Except PyErr StepQueue :=
  match process_job_route env job step with
  | .error e => .error e
  | .ok (j, s) => sq.add_job s j

/-- `process_done_job(job, step, sq)` up to the `sq.add_job`: only `step == 4` does
anything (consolidate, then re-enqueue at `step + 1`); step 5 handling is commented
out in the source. -/
def process_done_job_route (env : GptEnv) (job : Job) (step : Int) : Option (Job × Int) :=
  if step = 4 then some (chatgpt_consolidation env job, step + 1) else none

/-- Outcome of `await ipc_client.request("status")` in the delivery loop of `main`. -/
inductive IpcOutcome where
  | status (code : Int)
  | connError
  | resetError
  deriving DecidableEq, Repr

/-- Per-iteration oracle of the delivery loop: the status request outcome, whether
payload assembly raises `AttributeError`, and whether the `terminateJob` request
raises a (caught) transport exception. -/
structure IterOracle where
  ipc : IpcOutcome
  payloadRaises : Bool
  termRaises : Bool
  deriving DecidableEq, Repr

/-- The delivery loop's mutable state: the consecutive-failure counter and the
shared queue. -/
structure DState where
  failed_tries : Nat
  sq : StepQueue
  deriving DecidableEq, Repr

/-- One loop iteration's effect. -/
inductive DStep where
  | next (st : DState)
  | sysExit (code : Int)
  | raised (e : PyErr)
  deriving DecidableEq, Repr

/-- Result of running the `while failed_tries < 10` loop of `main`. -/
inductive DResult where
  | fuelOut (st : DState)
  | loopExited (st : DState)
  | sysExit (code : Int)
  | raised (e : PyErr)
  deriving DecidableEq, Repr

/-- One iteration of the delivery loop body of `main`: poll `get_done_job(step=5)`;
with a job in hand query the sink status.  200 resets the failure counter, then
either the payload raises `AttributeError` (→ `sq.clear(); sys.exit(1)`) or
`terminateJob` is attempted; a transport exception on it is caught and counted.
Every failure increments `failed_tries` and re-enqueues the job with
`sq.add_job(step, job)` (default priority). -/
def deliveryStep (st : DState) (o : IterOracle) : DStep :=
  match st.sq.get_done_job 5 with
  | .error e => .raised e
  | .ok (none, sq') => .next { st with sq := sq' }
  | .ok (some (step, job), sq') =>
    match o.ipc with
    | .status n =>
      if n = 200 then
        if o.payloadRaises then .sysExit 1
        else if o.termRaises then
          match sq'.add_job step job with
          | .error e => .raised e
          | .ok sq'' => .next { failed_tries := 0 + 1, sq := sq'' }
        else .next { failed_tries := 0, sq := sq' }
      else
        match sq'.add_job step job with
        | .error e => .raised e
        | .ok sq'' => .next { failed_tries := st.failed_tries + 1, sq := sq'' }
    | _ =>
      match sq'.add_job step job with
      | .error e => .raised e
      | .ok sq'' => .next { failed_tries := st.failed_tries + 1, sq := sq'' }

/-- The `while failed_tries < 10:` loop of `main`, driven by one oracle per
iteration.  When the guard fails the loop exits and `main` falls off its end — there
is no code after the loop, in particular no `sys.exit`. -/
def deliveryRun : DState → List IterOracle → DResult
  | st, [] => if st.failed_tries < 10 then .fuelOut st else .loopExited st
  | st, o :: os =>
    if st.failed_tries < 10 then
      match deliveryStep st o with
      | .next st' => deliveryRun st' os
      | .sysExit c => .sysExit c
      | .raised e => .raised e
    else .loopExited st

/-- Entry at position `i` (junk default out of range). -/
def nthE (l : List Entry) (i : Nat) : Entry := l.getD i dE

/-- The priorities of a heap, in array order. -/
def prios (l : List Entry) : List Int := l.map Prod.fst

/-- All priorities in the heap are pairwise distinct. -/
def DistinctP (l : List Entry) : Prop := (prios l).Nodup

/-- The binary min-heap invariant of a `heapq` list: every element is at least its
parent (array layout, parent of `i` is `(i-1)/2`). -/
def HeapLe (l : List Entry) : Prop :=
  ∀ i, i < l.length → 0 < i → (nthE l ((i - 1) / 2)).1 ≤ (nthE l i).1

/-- A sequence of `PriorityQueue.add_job` calls. -/
def pushJobs (q : PriorityQueue) : List (Int × Job) → Except PyErr PriorityQueue
  | [] => .ok q
  | (p, j) :: rest =>
    match q.add_job j p with
    | .error e => .error e
    | .ok q' => pushJobs q' rest

/-- Repeated `PriorityQueue.get_next_job` calls until the queue answers `None`
(or the fuel runs out), collecting the returned jobs. -/
def drainJobs : Nat → PriorityQueue → Except PyErr (List Job)
  | 0, _ => .ok []
  | fuel + 1, q =>
    match q.get_next_job with
    | .error e => .error e
    | .ok (none, _) => .ok []
    | .ok (some j, q') =>
      match drainJobs fuel q' with
      | .error e => .error e
      | .ok out => .ok (j :: out)

/-- Repeated `heappop` until empty, collecting the popped entries. -/
def drainEntries : Nat → List Entry → Except PyErr (List Entry)
  | 0, _ => .ok []
  | _ + 1, [] => .ok []
  | fuel + 1, l =>
    match heappop l with
    | .error e => .error e
    | .ok (e, l') =>
      match drainEntries fuel l' with
      | .error er => .error er
      | .ok out => .ok (e :: out)

/-- The length of the stage-`t` queue of `qs`. -/
def qLen (qs : List PriorityQueue) (t : Nat) : Nat := (qs.getD t { }).get_length

/-- Modelled from the spec's selection rule, for the refinement proof of
`StepQueue.get_next_job`: `s` is a non-terminal stage (`s < N_STAGES − 2`), its
queue is nonempty, no non-terminal queue is longer, and every earlier stage's queue
is strictly shorter (ties broken by lowest index). -/
def IsBestStage (qs : List PriorityQueue) (s : Nat) : Prop :=
  s < qs.length - 2 ∧ 0 < qLen qs s ∧
    (∀ t, t < qs.length - 2 → qLen qs t ≤ qLen qs s) ∧
    (∀ t, t < s → qLen qs t < qLen qs s)

/-- A fresh job as `updater` builds it, with `oid` standing for object identity. -/
def mkJob (oid : Nat) : Job :=
  { oid := oid, id_exec := (oid : Int), category := "cat", id_user := 7, path := "ws" }

/-- A `StepQueue` with `n` empty stage queues (the program uses `n = 6`). -/
def emptySQ (n : Nat) : StepQueue := { _queues := List.replicate n { } }

/-- Six stages with one default-priority job already sitting in stage 0. -/
def sqStage0 : StepQueue :=
  { _queues := [{ _queue := [(5, mkJob 1)] }, { }, { }, { }, { }, { }] }

/-- Six stages with one default-priority job sitting in the delivery stage 5. -/
def sqStage5 : StepQueue :=
  { _queues := [{ }, { }, { }, { }, { }, { _queue := [(5, mkJob 3)] }] }

/-! ## Basic list access lemmas -/

theorem nthE_set_eq (l : List Entry) (i : Nat) (a : Entry) (h : i < l.length) :
    nthE (l.set i a) i = a := by
  simp [nthE, List.getD_eq_getElem?_getD, List.getElem?_set_eq_of_lt, h]

theorem nthE_set_ne (l : List Entry) (i j : Nat) (a : Entry) (h : i ≠ j) :
    nthE (l.set i a) j = nthE l j := by
  simp [nthE, List.getD_eq_getElem?_getD, List.getElem?_set_ne, h]

theorem nthE_eq_getElem (l : List Entry) (i : Nat) (h : i < l.length) :
    nthE l i = l[i] := by
  simp [nthE, List.getD_eq_getElem?_getD, List.getElem?_eq_getElem h]

theorem set_nthE_self (l : List Entry) (i : Nat) (h : i < l.length) :
    l.set i (nthE l i) = l := by
  rw [nthE_eq_getElem l i h]
  apply List.ext_getElem
  · simp
  · intro n h1 h2
    rw [List.getElem_set]
    split
    · subst n; rfl
    · rfl

theorem nthE_append_left (a : Entry) (l : List Entry) (i : Nat) (h : i < l.length) :
    nthE (l ++ [a]) i = nthE l i := by
  simp [nthE, List.getD_eq_getElem?_getD, List.getElem?_append, h]

theorem nthE_append_right (a : Entry) (l : List Entry) :
    nthE (l ++ [a]) l.length = a := by
  simp [nthE, List.getD_eq_getElem?_getD]

theorem nthE_dropLast (l : List Entry) (i : Nat) (h : i + 1 < l.length) :
    nthE l.dropLast i = nthE l i := by
  have hi : i < l.dropLast.length := by simp; omega
  rw [nthE, nthE, List.getD_eq_getElem?_getD, List.getElem?_eq_getElem hi,
    List.getD_eq_getElem?_getD, List.getElem?_eq_getElem (by omega : i < l.length)]
  simp [List.getElem_dropLast]

theorem dropLast_append_getLastD (l : List Entry) (h : l ≠ []) :
    l.dropLast ++ [l.getLastD dE] = l := by
  rw [List.getLastD_eq_getLast?, List.getLast?_eq_getLast _ h, Option.getD_some]
  exact List.dropLast_append_getLast h

/-! ## Permutation lemmas for position swaps -/

theorem getD_cons_set_perm (d : Entry) :
    ∀ (t : List Entry) (m : Nat) (c : Entry), m < t.length →
      List.Perm (t.getD m d :: t.set m c) (c :: t)
  | [], m, c, h => by simp at h
  | a :: t, 0, c, _ => by
      simpa using List.Perm.swap c a t
  | a :: t, m + 1, c, h => by
      have ih := getD_cons_set_perm d t m c (by simpa using h)
      have heq : (a :: t).getD (m + 1) d :: (a :: t).set (m + 1) c
          = t.getD m d :: a :: t.set m c := by simp
      rw [heq]
      exact (List.Perm.swap a (t.getD m d) (t.set m c)).trans
        ((List.Perm.cons a ih).trans (List.Perm.swap c a t))

theorem set_swap_perm (d : Entry) :
    ∀ (l : List Entry) (i j : Nat), i < l.length → j < l.length →
      List.Perm ((l.set i (l.getD j d)).set j (l.getD i d)) l
  | [], i, j, hi, _ => by simp at hi
  | a :: t, 0, 0, _, _ => by simp
  | a :: t, 0, j + 1, hi, hj => by
      have hj' : j < t.length := by simpa using hj
      have heq : ((a :: t).set 0 ((a :: t).getD (j + 1) d)).set (j + 1) ((a :: t).getD 0 d)
          = t.getD j d :: t.set j a := by simp
      rw [heq]
      exact getD_cons_set_perm d t j a hj'
  | a :: t, i + 1, 0, hi, _ => by
      have hi' : i < t.length := by simpa using hi
      have heq : ((a :: t).set (i + 1) ((a :: t).getD 0 d)).set 0 ((a :: t).getD (i + 1) d)
          = t.getD i d :: t.set i a := by simp
      rw [heq]
      exact getD_cons_set_perm d t i a hi'
  | a :: t, i + 1, j + 1, hi, hj => by
      have ih := set_swap_perm d t i j (by simpa using hi) (by simpa using hj)
      simpa using List.Perm.cons a ih

/-! ## Priorities, distinctness, heap root -/

theorem prios_perm {l m : List Entry} (h : List.Perm l m) : List.Perm (prios l) (prios m) :=
  h.map Prod.fst

theorem distinctP_of_perm {l m : List Entry} (h : List.Perm l m) (hd : DistinctP l) :
    DistinctP m := ((prios_perm h).nodup_iff).1 hd

theorem distinct_prio_ne (l : List Entry) (hd : DistinctP l) (i j : Nat)
    (hi : i < l.length) (hj : j < l.length) (hij : i ≠ j) :
    (nthE l i).1 ≠ (nthE l j).1 := by
  rw [nthE_eq_getElem l i hi, nthE_eq_getElem l j hj]
  have hpl : (prios l).length = l.length := by simp [prios]
  have h1 : (prios l)[i] = l[i].1 := by simp [prios]
  have h2 : (prios l)[j] = l[j].1 := by simp [prios]
  intro hcon
  have hip : i < (prios l).length := by omega
  have hjp : j < (prios l).length := by omega
  have : (prios l)[i] = (prios l)[j] := by rw [h1, h2]; exact hcon
  exact hij (hd.getElem_inj_iff.mp this)

theorem heapLe_root_min (l : List Entry) (hl : HeapLe l) :
    ∀ i, i < l.length → (nthE l 0).1 ≤ (nthE l i).1 := by
  intro i
  induction i using Nat.strong_induction_on with
  | _ i ih =>
    intro hi
    rcases Nat.eq_zero_or_pos i with h0 | h0
    · subst h0; exact le_refl _
    · have hp : (i - 1) / 2 < i := by omega
      exact le_trans (ih _ hp (by omega)) (hl i hi h0)

/-! ## Correctness of the heapq sift operations on distinct-priority heaps -/

theorem nthE_def (l : List Entry) (i : Nat) : l.getD i dE = nthE l i := rfl

theorem siftdownLoop_ok (l0 : List Entry) (hd : DistinctP l0) (newitem : Entry) :
    ∀ (pos : Nat) (h : List Entry),
      pos < h.length →
      List.Perm (h.set pos newitem) l0 →
      (∀ i, i < h.length → 0 < i → i ≠ pos → (i - 1) / 2 ≠ pos →
        (nthE h ((i - 1) / 2)).1 ≤ (nthE h i).1) →
      (∀ j, j < h.length → 0 < j → (j - 1) / 2 = pos → 0 < pos →
        (nthE h ((pos - 1) / 2)).1 ≤ (nthE h j).1) →
      (∀ j, j < h.length → 0 < j → (j - 1) / 2 = pos → newitem.1 ≤ (nthE h j).1) →
      ∃ h' p', siftdownLoop 0 newitem h pos = .ok (h', p') ∧
        h'.length = h.length ∧ p' < h'.length ∧
        List.Perm (h'.set p' newitem) l0 ∧ HeapLe (h'.set p' newitem) := by
  intro pos
  induction pos using Nat.strong_induction_on with
  | _ pos ih =>
    intro h hlen hperm hcup hdup heup
    by_cases hpos : 0 < pos
    · -- loop body runs: compare newitem with the parent
      have hpplt : (pos - 1) / 2 < pos := by omega
      have hpplen : (pos - 1) / 2 < h.length := by omega
      have hdA : DistinctP (h.set pos newitem) := distinctP_of_perm hperm.symm hd
      have hApos : nthE (h.set pos newitem) pos = newitem := nthE_set_eq h pos newitem hlen
      have hApp : nthE (h.set pos newitem) ((pos - 1) / 2) = nthE h ((pos - 1) / 2) :=
        nthE_set_ne h pos ((pos - 1) / 2) newitem (by omega)
      have hne : newitem.1 ≠ (nthE h ((pos - 1) / 2)).1 := by
        have hx := distinct_prio_ne (h.set pos newitem) hdA pos ((pos - 1) / 2)
          (by rw [List.length_set]; omega) (by rw [List.length_set]; omega) (by omega)
        rwa [hApos, hApp] at hx
      by_cases hlt : newitem.1 < (nthE h ((pos - 1) / 2)).1
      · -- newitem < parent: move the parent down into the hole and recurse upward
        have hcmp : pyLt newitem (h.getD ((pos - 1) / 2) dE) = .ok true := by
          rw [nthE_def]; simp [pyLt, hne, hlt]
        have hstep : siftdownLoop 0 newitem h pos =
            siftdownLoop 0 newitem (h.set pos (h.getD ((pos - 1) / 2) dE)) ((pos - 1) / 2) := by
          rw [siftdownLoop, dif_pos hpos, hcmp]
        -- invariants for the recursive call
        have hlen' : (pos - 1) / 2 < (h.set pos (h.getD ((pos - 1) / 2) dE)).length := by
          rw [List.length_set]; omega
        have hperm' :
            List.Perm ((h.set pos (h.getD ((pos - 1) / 2) dE)).set ((pos - 1) / 2) newitem) l0 := by
          have hswap := set_swap_perm dE (h.set pos newitem) pos ((pos - 1) / 2)
            (by rw [List.length_set]; omega) (by rw [List.length_set]; omega)
          rw [List.set_set, nthE_def (h.set pos newitem), hApp, nthE_def (h.set pos newitem),
            hApos] at hswap
          exact hswap.trans hperm
        have hget : ∀ x, x ≠ pos →
            nthE (h.set pos (h.getD ((pos - 1) / 2) dE)) x = nthE h x := by
          intro x hx
          exact nthE_set_ne h pos x _ (fun hc => hx hc.symm)
        have hgetpos : nthE (h.set pos (h.getD ((pos - 1) / 2) dE)) pos = nthE h ((pos - 1) / 2) := by
          rw [nthE_def]; exact nthE_set_eq h pos _ hlen
        have hcup' : ∀ i, i < (h.set pos (h.getD ((pos - 1) / 2) dE)).length → 0 < i →
            i ≠ (pos - 1) / 2 → (i - 1) / 2 ≠ (pos - 1) / 2 →
            (nthE (h.set pos (h.getD ((pos - 1) / 2) dE)) ((i - 1) / 2)).1 ≤
              (nthE (h.set pos (h.getD ((pos - 1) / 2) dE)) i).1 := by
          intro i hi h0i hi_pp hpar_pp
          rw [List.length_set] at hi
          by_cases hip : i = pos
          · exact absurd (by omega : (i - 1) / 2 = (pos - 1) / 2) hpar_pp
          · by_cases hpari : (i - 1) / 2 = pos
            · -- i is a child of the old hole
              have higt : pos < i := by omega
              rw [hpari, hgetpos, hget i hip]
              exact hdup i hi h0i hpari hpos
            · rw [hget i hip, hget ((i - 1) / 2) hpari]
              exact hcup i hi h0i hip hpari
        have hdup' : ∀ j, j < (h.set pos (h.getD ((pos - 1) / 2) dE)).length → 0 < j →
            (j - 1) / 2 = (pos - 1) / 2 → 0 < (pos - 1) / 2 →
            (nthE (h.set pos (h.getD ((pos - 1) / 2) dE)) (((pos - 1) / 2 - 1) / 2)).1 ≤
              (nthE (h.set pos (h.getD ((pos - 1) / 2) dE)) j).1 := by
          intro j hj h0j hparj h0pp
          rw [List.length_set] at hj
          have hgp_ne : ((pos - 1) / 2 - 1) / 2 ≠ pos := by omega
          have hgp_le : (nthE h (((pos - 1) / 2 - 1) / 2)).1 ≤ (nthE h ((pos - 1) / 2)).1 :=
            hcup ((pos - 1) / 2) hpplen h0pp (by omega) (by omega)
          rw [hget _ hgp_ne]
          by_cases hjp : j = pos
          · rw [hjp, hgetpos]; exact hgp_le
          · rw [hget j hjp]
            have hcj := hcup j hj h0j hjp (by omega)
            rw [hparj] at hcj
            exact le_trans hgp_le hcj
        have heup' : ∀ j, j < (h.set pos (h.getD ((pos - 1) / 2) dE)).length → 0 < j →
            (j - 1) / 2 = (pos - 1) / 2 →
            newitem.1 ≤ (nthE (h.set pos (h.getD ((pos - 1) / 2) dE)) j).1 := by
          intro j hj h0j hparj
          rw [List.length_set] at hj
          by_cases hjp : j = pos
          · rw [hjp, hgetpos]; exact le_of_lt hlt
          · rw [hget j hjp]
            have hcj := hcup j hj h0j hjp (by omega)
            rw [hparj] at hcj
            exact le_trans (le_of_lt hlt) hcj
        obtain ⟨h', p', heq, hlen'', hp', hperm'', hheap''⟩ :=
          ih ((pos - 1) / 2) hpplt (h.set pos (h.getD ((pos - 1) / 2) dE))
            hlen' hperm' hcup' hdup' heup'
        refine ⟨h', p', by rw [hstep]; exact heq, ?_, hp', hperm'', hheap''⟩
        rw [hlen'', List.length_set]
      · -- parent ≤ newitem: the hole stays here
        have hcmp : pyLt newitem (h.getD ((pos - 1) / 2) dE) = .ok false := by
          rw [nthE_def]; simp [pyLt, hne, hlt]
        have hstep : siftdownLoop 0 newitem h pos = .ok (h, pos) := by
          rw [siftdownLoop, dif_pos hpos, hcmp]
        refine ⟨h, pos, hstep, rfl, hlen, hperm, ?_⟩
        intro i hi h0i
        rw [List.length_set] at hi
        by_cases hip : i = pos
        · subst hip
          rw [nthE_set_eq h i newitem hlen,
            nthE_set_ne h i ((i - 1) / 2) newitem (by omega)]
          exact le_of_not_lt hlt
        · by_cases hpari : (i - 1) / 2 = pos
          · rw [hpari, nthE_set_eq h pos newitem hlen, nthE_set_ne h pos i newitem (fun hc => hip hc.symm)]
            exact heup i hi h0i hpari
          · rw [nthE_set_ne h pos i newitem (fun hc => hip hc.symm),
              nthE_set_ne h pos ((i - 1) / 2) newitem (fun hc => hpari hc.symm)]
            exact hcup i hi h0i hip hpari
    · -- pos = 0: place newitem at the root
      have hp0 : pos = 0 := by omega
      subst hp0
      refine ⟨h, 0, by rw [siftdownLoop]; simp, rfl, hlen, hperm, ?_⟩
      intro i hi h0i
      rw [List.length_set] at hi
      by_cases hpar : (i - 1) / 2 = 0
      · rw [hpar, nthE_set_eq h 0 newitem (by omega), nthE_set_ne h 0 i newitem (by omega)]
        exact heup i hi h0i hpar
      · rw [nthE_set_ne h 0 i newitem (by omega),
          nthE_set_ne h 0 ((i - 1) / 2) newitem (fun hc => hpar hc.symm)]
        exact hcup i hi h0i (by omega) hpar

theorem heappush_ok (l : List Entry) (x : Entry) (hheap : HeapLe l) (hd : DistinctP (l ++ [x])) :
    ∃ m, heappush l x = .ok m ∧ m.length = l.length + 1 ∧
      List.Perm m (l ++ [x]) ∧ HeapLe m := by
  have hlen : l.length < (l ++ [x]).length := by simp
  have hx : (l ++ [x]).getD l.length dE = x := nthE_append_right x l
  have hset : (l ++ [x]).set l.length x = l ++ [x] := by
    have hs := set_nthE_self (l ++ [x]) l.length hlen
    rwa [nthE_append_right] at hs
  obtain ⟨h', p', heq, hlen', hp', hperm', hheap'⟩ :=
    siftdownLoop_ok (l ++ [x]) hd x l.length (l ++ [x]) hlen
      (by rw [hset])
      (by
        intro i hi h0i hne hpar
        simp only [List.length_append, List.length_singleton] at hi
        have hi' : i < l.length := by omega
        have hpar' : (i - 1) / 2 < l.length := by omega
        rw [nthE_append_left x l i hi', nthE_append_left x l _ hpar']
        exact hheap i hi' h0i)
      (by
        intro j hj h0j hparj
        simp only [List.length_append, List.length_singleton] at hj
        exfalso; omega)
      (by
        intro j hj h0j hparj
        simp only [List.length_append, List.length_singleton] at hj
        exfalso; omega)
  refine ⟨h'.set p' x, ?_, ?_, hperm', hheap'⟩
  · simp only [heappush, pySiftdown, hx, heq, Except.map]
  · rw [List.length_set, hlen', List.length_append, List.length_singleton]

theorem siftupStep (l0 : List Entry) (newitem : Entry) (N pos c : Nat) (h : List Entry)
    (hcpar : (c - 1) / 2 = pos) (hc0 : 0 < c) (hcN : c < N)
    (hlen : h.length = N) (hposN : pos < N)
    (hperm : List.Perm (h.set pos newitem) l0)
    (hcdown : ∀ i, i < N → 0 < i → i ≠ pos → (i - 1) / 2 ≠ pos →
      (nthE h ((i - 1) / 2)).1 ≤ (nthE h i).1)
    (hddown : ∀ j, j < N → 0 < j → (j - 1) / 2 = pos → 0 < pos →
      (nthE h ((pos - 1) / 2)).1 ≤ (nthE h j).1)
    (hmin : ∀ s, s < N → 0 < s → (s - 1) / 2 = pos → (nthE h c).1 ≤ (nthE h s).1) :
    (h.set pos (h.getD c dE)).length = N ∧
    List.Perm ((h.set pos (h.getD c dE)).set c newitem) l0 ∧
    (∀ i, i < N → 0 < i → i ≠ c → (i - 1) / 2 ≠ c →
      (nthE (h.set pos (h.getD c dE)) ((i - 1) / 2)).1 ≤
        (nthE (h.set pos (h.getD c dE)) i).1) ∧
    (∀ j, j < N → 0 < j → (j - 1) / 2 = c → 0 < c →
      (nthE (h.set pos (h.getD c dE)) ((c - 1) / 2)).1 ≤
        (nthE (h.set pos (h.getD c dE)) j).1) := by
  have hcgt : pos < c := by omega
  have hposlen : pos < h.length := by omega
  have hH'pos : nthE (h.set pos (h.getD c dE)) pos = nthE h c :=
    nthE_set_eq h pos _ hposlen
  have hH'x : ∀ x, x ≠ pos → nthE (h.set pos (h.getD c dE)) x = nthE h x := by
    intro x hx
    exact nthE_set_ne h pos x _ (fun hc' => hx hc'.symm)
  refine ⟨by rw [List.length_set, hlen], ?_, ?_, ?_⟩
  · -- the multiset is untouched: the two updates amount to swapping positions pos and c
    have hApos : nthE (h.set pos newitem) pos = newitem := nthE_set_eq h pos newitem hposlen
    have hApc : nthE (h.set pos newitem) c = nthE h c :=
      nthE_set_ne h pos c newitem (by omega)
    have hswap := set_swap_perm dE (h.set pos newitem) pos c
      (by rw [List.length_set]; omega) (by rw [List.length_set]; omega)
    rw [List.set_set, nthE_def (h.set pos newitem), hApc, nthE_def (h.set pos newitem),
      hApos] at hswap
    exact hswap.trans hperm
  · -- non-hole edges of the new state
    intro i hi h0i hic hpari
    by_cases hip : i = pos
    · subst hip
      have h0pos : 0 < i := h0i
      have hppne : (i - 1) / 2 ≠ i := by omega
      rw [hH'x ((i - 1) / 2) hppne, hH'pos]
      exact hddown c hcN hc0 hcpar h0pos
    · by_cases hpari_pos : (i - 1) / 2 = pos
      · rw [hpari_pos, hH'pos, hH'x i hip]
        exact hmin i hi h0i hpari_pos
      · rw [hH'x i hip, hH'x ((i - 1) / 2) hpari_pos]
        exact hcdown i hi h0i hip hpari_pos
  · -- children of the new hole are above the value that slid down
    intro j hj h0j hparj h0c
    have hjgt : c < j := by omega
    have hjne : j ≠ pos := by omega
    have hparjne : (j - 1) / 2 ≠ pos := by omega
    rw [hcpar, hH'pos, hH'x j hjne]
    have hcj := hcdown j hj h0j hjne hparjne
    rw [hparj] at hcj
    exact hcj

theorem siftupLoop_ok (l0 : List Entry) (hd : DistinctP l0) (newitem : Entry) (N : Nat) :
    ∀ (k pos : Nat) (h : List Entry),
      N - pos ≤ k → h.length = N → pos < N →
      List.Perm (h.set pos newitem) l0 →
      (∀ i, i < N → 0 < i → i ≠ pos → (i - 1) / 2 ≠ pos →
        (nthE h ((i - 1) / 2)).1 ≤ (nthE h i).1) →
      (∀ j, j < N → 0 < j → (j - 1) / 2 = pos → 0 < pos →
        (nthE h ((pos - 1) / 2)).1 ≤ (nthE h j).1) →
      ∃ h' p', siftupLoop N h pos = .ok (h', p') ∧
        h'.length = N ∧ p' < N ∧ N ≤ 2 * p' + 1 ∧
        List.Perm (h'.set p' newitem) l0 ∧
        (∀ i, i < N → 0 < i → i ≠ p' → (i - 1) / 2 ≠ p' →
          (nthE h' ((i - 1) / 2)).1 ≤ (nthE h' i).1) ∧
        (∀ j, j < N → 0 < j → (j - 1) / 2 = p' → 0 < p' →
          (nthE h' ((p' - 1) / 2)).1 ≤ (nthE h' j).1) := by
  intro k
  induction k with
  | zero => intro pos h hk hlen hpos _ _ _; exfalso; omega
  | succ k ihk =>
    intro pos h hk hlen hpos hperm hcdown hddown
    by_cases hch : 2 * pos + 1 < N
    · have hdA : DistinctP (h.set pos newitem) := distinctP_of_perm hperm.symm hd
      by_cases hch2 : 2 * pos + 2 < N
      · -- two children: descend into the smaller one
        have hA1 : nthE (h.set pos newitem) (2 * pos + 1) = nthE h (2 * pos + 1) :=
          nthE_set_ne h pos _ newitem (by omega)
        have hA2 : nthE (h.set pos newitem) (2 * pos + 2) = nthE h (2 * pos + 2) :=
          nthE_set_ne h pos _ newitem (by omega)
        have hne : (nthE h (2 * pos + 1)).1 ≠ (nthE h (2 * pos + 2)).1 := by
          have hx := distinct_prio_ne (h.set pos newitem) hdA (2 * pos + 1) (2 * pos + 2)
            (by rw [List.length_set]; omega) (by rw [List.length_set]; omega) (by omega)
          rwa [hA1, hA2] at hx
        by_cases hlt : (nthE h (2 * pos + 1)).1 < (nthE h (2 * pos + 2)).1
        · have hcmp : pyLt (h.getD (2 * pos + 1) dE) (h.getD (2 * pos + 2) dE) = .ok true := by
            rw [nthE_def, nthE_def]; simp [pyLt, hne, hlt]
          have hstep : siftupLoop N h pos =
              siftupLoop N (h.set pos (h.getD (2 * pos + 1) dE)) (2 * pos + 1) := by
            rw [siftupLoop, dif_pos hch, dif_pos hch2, hcmp]
          have hmin : ∀ s, s < N → 0 < s → (s - 1) / 2 = pos →
              (nthE h (2 * pos + 1)).1 ≤ (nthE h s).1 := by
            intro s hs h0s hpars
            by_cases hs1 : s = 2 * pos + 1
            · subst hs1; exact le_refl _
            · have hs2 : s = 2 * pos + 2 := by omega
              subst hs2; exact le_of_lt hlt
          obtain ⟨hlen', hperm', hcdown', hddown'⟩ :=
            siftupStep l0 newitem N pos (2 * pos + 1) h (by omega) (by omega) hch
              hlen hpos hperm hcdown hddown hmin
          obtain ⟨h', p', heq, h1, h2, h3, h4, h5, h6⟩ :=
            ihk (2 * pos + 1) (h.set pos (h.getD (2 * pos + 1) dE)) (by omega)
              hlen' (by omega) hperm' hcdown' hddown'
          exact ⟨h', p', by rw [hstep]; exact heq, h1, h2, h3, h4, h5, h6⟩
        · have hcmp : pyLt (h.getD (2 * pos + 1) dE) (h.getD (2 * pos + 2) dE) = .ok false := by
            rw [nthE_def, nthE_def]; simp [pyLt, hne, hlt]
          have hstep : siftupLoop N h pos =
              siftupLoop N (h.set pos (h.getD (2 * pos + 2) dE)) (2 * pos + 2) := by
            rw [siftupLoop, dif_pos hch, dif_pos hch2, hcmp]
          have hmin : ∀ s, s < N → 0 < s → (s - 1) / 2 = pos →
              (nthE h (2 * pos + 2)).1 ≤ (nthE h s).1 := by
            intro s hs h0s hpars
            by_cases hs1 : s = 2 * pos + 1
            · subst hs1; exact le_of_not_lt hlt
            · have hs2 : s = 2 * pos + 2 := by omega
              subst hs2; exact le_refl _
          obtain ⟨hlen', hperm', hcdown', hddown'⟩ :=
            siftupStep l0 newitem N pos (2 * pos + 2) h (by omega) (by omega) hch2
              hlen hpos hperm hcdown hddown hmin
          obtain ⟨h', p', heq, h1, h2, h3, h4, h5, h6⟩ :=
            ihk (2 * pos + 2) (h.set pos (h.getD (2 * pos + 2) dE)) (by omega)
              hlen' (by omega) hperm' hcdown' hddown'
          exact ⟨h', p', by rw [hstep]; exact heq, h1, h2, h3, h4, h5, h6⟩
      · -- single child
        have hstep : siftupLoop N h pos =
            siftupLoop N (h.set pos (h.getD (2 * pos + 1) dE)) (2 * pos + 1) := by
          rw [siftupLoop, dif_pos hch, dif_neg hch2]
        have hmin : ∀ s, s < N → 0 < s → (s - 1) / 2 = pos →
            (nthE h (2 * pos + 1)).1 ≤ (nthE h s).1 := by
          intro s hs h0s hpars
          have hs1 : s = 2 * pos + 1 := by omega
          subst hs1; exact le_refl _
        obtain ⟨hlen', hperm', hcdown', hddown'⟩ :=
          siftupStep l0 newitem N pos (2 * pos + 1) h (by omega) (by omega) hch
            hlen hpos hperm hcdown hddown hmin
        obtain ⟨h', p', heq, h1, h2, h3, h4, h5, h6⟩ :=
          ihk (2 * pos + 1) (h.set pos (h.getD (2 * pos + 1) dE)) (by omega)
            hlen' (by omega) hperm' hcdown' hddown'
        exact ⟨h', p', by rw [hstep]; exact heq, h1, h2, h3, h4, h5, h6⟩
    · -- leaf reached
      refine ⟨h, pos, by rw [siftupLoop, dif_neg hch], hlen, hpos, by omega,
        hperm, hcdown, hddown⟩

theorem pySiftup_root_ok (h1 : List Entry) (hd : DistinctP h1) (hne : h1 ≠ [])
    (hedges : ∀ i, i < h1.length → 0 < i → (i - 1) / 2 ≠ 0 →
      (nthE h1 ((i - 1) / 2)).1 ≤ (nthE h1 i).1) :
    ∃ m, pySiftup h1 0 = .ok m ∧ m.length = h1.length ∧ List.Perm m h1 ∧ HeapLe m := by
  have hlen0 : 0 < h1.length := List.length_pos.mpr hne
  have hset : h1.set 0 (h1.getD 0 dE) = h1 := set_nthE_self h1 0 hlen0
  obtain ⟨h', p', heq, hlen', hp', hleaf, hperm', hcdown', hddown'⟩ :=
    siftupLoop_ok h1 hd (h1.getD 0 dE) h1.length h1.length 0 h1 (by omega) rfl hlen0
      (by rw [hset])
      (fun i hi h0i _ hpar => hedges i hi h0i hpar)
      (fun j hj h0j hparj h0 => absurd h0 (lt_irrefl 0))
  obtain ⟨h'', p'', heq2, hlen'', hp'', hperm'', hheap''⟩ :=
    siftdownLoop_ok h1 hd (h1.getD 0 dE) p' (h'.set p' (h1.getD 0 dE))
      (by rw [List.length_set]; omega)
      (by rw [List.set_set]; exact hperm')
      (by
        intro i hi h0i hip hpari
        rw [List.length_set, hlen'] at hi
        rw [nthE_set_ne h' p' i _ (fun hc => hip hc.symm),
          nthE_set_ne h' p' ((i - 1) / 2) _ (fun hc => hpari hc.symm)]
        exact hcdown' i hi h0i hip hpari)
      (by
        intro j hj h0j hparj h0p
        rw [List.length_set, hlen'] at hj
        exfalso; omega)
      (by
        intro j hj h0j hparj
        rw [List.length_set, hlen'] at hj
        exfalso; omega)
  refine ⟨h''.set p'' (h1.getD 0 dE), ?_, ?_, hperm'', hheap''⟩
  · simp only [pySiftup, heq, pySiftdown]
    rw [show (h'.set p' (h1.getD 0 dE)).getD p' dE = h1.getD 0 dE from
      nthE_set_eq h' p' _ (by omega)]
    rw [heq2]
    rfl
  · rw [List.length_set, hlen'', List.length_set, hlen']

theorem heappop_ok (l : List Entry) (hne : l ≠ []) (hheap : HeapLe l) (hd : DistinctP l) :
    ∃ e m, heappop l = .ok (e, m) ∧ List.Perm l (e :: m) ∧ HeapLe m ∧ DistinctP m ∧
      m.length + 1 = l.length ∧ (∀ y ∈ l, e.1 ≤ y.1) ∧ e = nthE l 0 := by
  have hmin : ∀ y ∈ l, (nthE l 0).1 ≤ y.1 := by
    intro y hy
    obtain ⟨i, hi, hiy⟩ := List.mem_iff_getElem.mp hy
    have := heapLe_root_min l hheap i hi
    rwa [nthE_eq_getElem l i hi, hiy] at this
  match l, hne with
  | [a], _ =>
    refine ⟨a, [], by simp [heappop], by simp, ?_, ?_, by simp, ?_, by simp [nthE]⟩
    · intro i hi h0i; simp at hi
    · simp [DistinctP, prios]
    · intro y hy; simp at hy; subst hy; exact le_refl _
  | a :: b :: t, _ =>
    have hlne : (a :: b :: t) ≠ [] := by simp
    have hrlen : ((a :: b :: t).dropLast).length = t.length + 1 := by
      simp [List.length_dropLast]
    have hrne : ((a :: b :: t).dropLast).isEmpty = false := by
      rw [List.isEmpty_eq_false_iff_exists_mem]
      have : 0 < ((a :: b :: t).dropLast).length := by omega
      obtain ⟨x, hx⟩ := List.exists_mem_of_length_pos this
      exact ⟨x, hx⟩
    have h0r : 0 < ((a :: b :: t).dropLast).length := by omega
    -- the root, returned by the pop
    have hroot : ((a :: b :: t).dropLast).getD 0 dE = nthE (a :: b :: t) 0 :=
      nthE_dropLast (a :: b :: t) 0 (by simp)
    -- the swap produces a permutation of the tailless list
    have hperm1 : List.Perm
        (nthE (a :: b :: t) 0 ::
          ((a :: b :: t).dropLast).set 0 ((a :: b :: t).getLastD dE))
        (a :: b :: t) := by
      have hp1 := getD_cons_set_perm dE ((a :: b :: t).dropLast) 0
        ((a :: b :: t).getLastD dE) h0r
      rw [hroot] at hp1
      refine hp1.trans ?_
      have hp2 : List.Perm
          ((a :: b :: t).getLastD dE :: (a :: b :: t).dropLast)
          ((a :: b :: t).dropLast ++ [(a :: b :: t).getLastD dE]) :=
        (List.perm_append_singleton _ _).symm
      refine hp2.trans ?_
      rw [dropLast_append_getLastD (a :: b :: t) hlne]
    set h1 : List Entry := ((a :: b :: t).dropLast).set 0 ((a :: b :: t).getLastD dE) with hh1
    have hd1 : DistinctP h1 := by
      have hpp := prios_perm hperm1
      have : (prios (nthE (a :: b :: t) 0 :: h1)).Nodup := hpp.nodup_iff.mpr hd
      simpa [prios] using this.of_cons
    have hne1 : h1 ≠ [] := by
      have : h1.length = t.length + 1 := by rw [hh1, List.length_set, hrlen]
      intro hc; rw [hc] at this; simp at this
    have hedges1 : ∀ i, i < h1.length → 0 < i → (i - 1) / 2 ≠ 0 →
        (nthE h1 ((i - 1) / 2)).1 ≤ (nthE h1 i).1 := by
      intro i hi h0i hpar
      rw [hh1, List.length_set, hrlen] at hi
      have hi2 : i + 1 < (a :: b :: t).length := by simp; omega
      have hpar2 : (i - 1) / 2 + 1 < (a :: b :: t).length := by simp; omega
      rw [hh1, nthE_set_ne _ 0 i _ (by omega), nthE_set_ne _ 0 ((i - 1) / 2) _ (by omega),
        nthE_dropLast _ i hi2, nthE_dropLast _ ((i - 1) / 2) hpar2]
      exact hheap i (by simp; omega) h0i
    obtain ⟨m, hmeq, hmlen, hmperm, hmheap⟩ := pySiftup_root_ok h1 hd1 hne1 hedges1
    refine ⟨nthE (a :: b :: t) 0, m, ?_, ?_, hmheap, ?_, ?_, hmin, rfl⟩
    · show heappop (a :: b :: t) = _
      simp only [heappop, hrne, Bool.false_eq_true, if_false, hroot]
      rw [← hh1, hmeq]
      rfl
    · exact hperm1.symm.trans (List.Perm.cons _ hmperm.symm)
    · exact distinctP_of_perm hmperm.symm hd1
    · rw [hmlen, hh1, List.length_set, hrlen]; simp

theorem drainEntries_sorted :
    ∀ (fuel : Nat) (l : List Entry), HeapLe l → DistinctP l → l.length ≤ fuel →
      ∃ out, drainEntries fuel l = .ok out ∧ List.Perm out l ∧
        List.Pairwise (fun a b : Entry => a.1 < b.1) out := by
  intro fuel
  induction fuel with
  | zero =>
    intro l _ _ hlen
    have hl : l = [] := List.length_eq_zero.mp (by omega)
    subst hl
    exact ⟨[], rfl, by simp, by simp⟩
  | succ fuel ih =>
    intro l hheap hd hlen
    match l with
    | [] => exact ⟨[], rfl, by simp, by simp⟩
    | x :: xs =>
      obtain ⟨e, m, heq, hperm, hmheap, hmd, hmlen, hmn, _⟩ :=
        heappop_ok (x :: xs) (by simp) hheap hd
      obtain ⟨out, hout, houtperm, houtpw⟩ := ih m hmheap hmd (by
        have := hlen; simp only [List.length_cons] at this; omega)
      refine ⟨e :: out, ?_, ?_, ?_⟩
      · show drainEntries (fuel + 1) (x :: xs) = .ok (e :: out)
        simp only [drainEntries, heq, hout]
      · exact (houtperm.cons e).trans hperm.symm
      · refine List.Pairwise.cons ?_ houtpw
        intro y hy
        have hym : y ∈ m := houtperm.subset hy
        have hyl : y ∈ x :: xs := hperm.symm.subset (List.mem_cons_of_mem e hym)
        have hle : e.1 ≤ y.1 := hmn y hyl
        have hne : e.1 ≠ y.1 := by
          have hdp : (prios (e :: m)).Nodup := (prios_perm hperm).nodup_iff.mp hd
          simp only [prios, List.map_cons, List.nodup_cons] at hdp
          intro hc
          exact hdp.1 (by rw [hc]; exact List.mem_map_of_mem Prod.fst hym)
        exact lt_of_le_of_ne hle hne

theorem pushJobs_ok :
    ∀ (items : List Entry) (q : PriorityQueue), HeapLe q._queue →
      DistinctP (q._queue ++ items) →
      ∃ q', pushJobs q items = .ok q' ∧ List.Perm q'._queue (q._queue ++ items) ∧
        HeapLe q'._queue := by
  intro items
  induction items with
  | nil => intro q hh hd; exact ⟨q, rfl, by simp, hh⟩
  | cons x rest ih =>
    intro q hh hd
    obtain ⟨p, j⟩ := x
    have hd1 : DistinctP (q._queue ++ [(p, j)]) := by
      have hsub : (prios (q._queue ++ [(p, j)])).Sublist
          (prios (q._queue ++ (p, j) :: rest)) := by
        refine List.Sublist.map Prod.fst ?_
        exact List.Sublist.append_left (List.Sublist.cons₂ (p, j) (List.nil_sublist rest)) _
      exact hd.sublist hsub
    obtain ⟨m, hpush, hmlen, hmperm, hmheap⟩ := heappush_ok q._queue (p, j) hh hd1
    have haddeq : PriorityQueue.add_job q j p = .ok { _queue := m } := by
      simp [PriorityQueue.add_job, hpush, Except.map]
    have hbig : List.Perm (m ++ rest) (q._queue ++ (p, j) :: rest) := by
      have hp : List.Perm (m ++ rest) ((q._queue ++ [(p, j)]) ++ rest) :=
        hmperm.append_right rest
      rwa [List.append_assoc, List.singleton_append] at hp
    have hd2 : DistinctP (({ _queue := m } : PriorityQueue)._queue ++ rest) :=
      distinctP_of_perm hbig.symm hd
    obtain ⟨q', hq', hq'perm, hq'heap⟩ := ih { _queue := m } hmheap hd2
    refine ⟨q', ?_, ?_, hq'heap⟩
    · show pushJobs q ((p, j) :: rest) = .ok q'
      simp only [pushJobs, haddeq]
      exact hq'
    · exact hq'perm.trans hbig

theorem drainJobs_eq : ∀ (fuel : Nat) (q : PriorityQueue),
    drainJobs fuel q = (drainEntries fuel q._queue).map (List.map Prod.snd) := by
  intro fuel
  induction fuel with
  | zero => intro q; rfl
  | succ fuel ih =>
    intro q
    obtain ⟨l⟩ := q
    match l with
    | [] => rfl
    | x :: xs =>
      match hpop : heappop (x :: xs) with
      | .error e =>
        simp only [drainJobs, drainEntries, PriorityQueue.get_next_job, hpop, Except.map]
      | .ok (e, l') =>
        have hlhs : PriorityQueue.get_next_job { _queue := x :: xs } =
            .ok (some e.2, { _queue := l' }) := by
          simp only [PriorityQueue.get_next_job, hpop, Except.map]
        match hde : drainEntries fuel l' with
        | .error er =>
          have hinner := ih { _queue := l' }
          rw [hde] at hinner
          simp only [drainJobs, drainEntries, hlhs, hpop, hde, hinner, Except.map]
        | .ok out =>
          have hinner := ih { _queue := l' }
          rw [hde] at hinner
          simp only [drainJobs, drainEntries, hlhs, hpop, hde, hinner, Except.map, List.map_cons]

/-- C1 (amended): for every sequence of `PriorityQueue.add_job` pushes whose
priorities are pairwise distinct, all pushes succeed and repeated
`PriorityQueue.get_next_job` pops return the pushed jobs in strictly ascending
order of priority value.  (The original claim's stable tiebreak for equal
priorities does not hold — see the counterexample: with duplicate priorities the
push itself raises `TypeError`.) -/
theorem c1_pushes_then_pops_sorted (items : List Entry)
    (hd : (items.map Prod.fst).Nodup) :
    ∃ (q : PriorityQueue) (out : List Entry),
      pushJobs { } items = .ok q ∧
      List.Perm out items ∧
      List.Pairwise (fun a b : Entry => a.1 < b.1) out ∧
      drainJobs q._queue.length q = .ok (out.map Prod.snd) := by
  have hd' : DistinctP (({ } : PriorityQueue)._queue ++ items) := by
    simpa [DistinctP, prios] using hd
  obtain ⟨q, hpush, hperm, hheap⟩ := pushJobs_ok items { }
    (by intro i hi h0i; simp at hi) hd'
  have hqd : DistinctP q._queue := by
    refine distinctP_of_perm hperm.symm ?_
    simpa [DistinctP, prios] using hd
  obtain ⟨out, hdrain, houtperm, houtpw⟩ :=
    drainEntries_sorted q._queue.length q._queue hheap hqd (le_refl _)
  refine ⟨q, out, hpush, houtperm.trans (by simpa using hperm), houtpw, ?_⟩
  rw [drainJobs_eq, hdrain]
  rfl

/-- C1 counterexample: the claim as stated fails on the push sequence
`add_job(job₁, 5); add_job(job₂, 5)` — instead of the promised pops in insertion
order, the second push already raises `TypeError` (heapq compares the
`(5, job₂)` tuple against `(5, job₁)` and `Job` defines no ordering), so no pops
can return the two jobs at all. -/
theorem c1_counterexample :
    pushJobs { } [(5, mkJob 1), (5, mkJob 2)] = .error .typeError := by
  simp [pushJobs, PriorityQueue.add_job, heappush, pySiftdown, siftdownLoop, pyLt,
    mkJob, Except.map]

theorem c1_witness :
    ∃ (q : PriorityQueue) (out : List Entry),
      pushJobs { } [(7, mkJob 1), (3, mkJob 2)] = .ok q ∧
      List.Perm out [(7, mkJob 1), (3, mkJob 2)] ∧
      List.Pairwise (fun a b : Entry => a.1 < b.1) out ∧
      drainJobs q._queue.length q = .ok (out.map Prod.snd) :=
  c1_pushes_then_pops_sorted [(7, mkJob 1), (3, mkJob 2)] (by decide)

/-- C2: pushing a second job with a priority equal to one already in the heap makes
heapq compare the `(priority, Job)` tuples' `Job` components, which raises
`TypeError`; in particular two jobs enqueued at the same stage with the default
priority 5 crash the push (shown both at the `PriorityQueue` level and through
`StepQueue.add_job` with its default priority). -/
theorem c2_duplicate_priority_typeerror :
    PriorityQueue.add_job { _queue := [(5, mkJob 1)] } (mkJob 2) 5 = .error .typeError ∧
    StepQueue.add_job sqStage0 0 (mkJob 2) = .error .typeError := by
  constructor <;>
    simp [PriorityQueue.add_job, StepQueue.add_job, sqStage0, pyIndex, heappush,
      pySiftdown, siftdownLoop, pyLt, mkJob, Except.map]

/-- C5 counterexample: a snapshot file whose unpickling raises anything other than
`EOFError` — e.g. `pickle.UnpicklingError` for corrupt data — propagates out of
`restore()` and makes `StepQueue` construction fail, contrary to the claim that a
corrupt snapshot never fails construction. -/
theorem c5_counterexample :
    StepQueue.init 6 (.present (.raises .unpicklingError)) = .error .unpicklingError := by
  simp [StepQueue.init, StepQueue.restore]

/-- C5 (amended): construction never fails when the snapshot file is absent (the
queues stay empty), loads the snapshot's queue contents when unpickling succeeds,
and survives a corrupt file only when unpickling raises `EOFError` (the only
exception the `try` block catches); any other unpickling exception propagates and
construction fails. -/
theorem c5_restore_behaviour (steps : Nat) (qs : List PriorityQueue) (e : PyErr) :
    StepQueue.init steps .absent = .ok { _queues := List.replicate steps { } } ∧
    StepQueue.init steps (.present (.loaded qs)) = .ok { _queues := qs } ∧
    StepQueue.init steps (.present (.raises e)) =
      (if e = .eofError then .ok { _queues := List.replicate steps { } } else .error e) := by
  refine ⟨rfl, rfl, ?_⟩
  by_cases he : e = .eofError <;> simp [StepQueue.init, StepQueue.restore, he]

/-- C7 counterexample: `get_done_job` performs no bounds check on its stage
argument: called with stage 0 — a non-terminal stage, `0 < N_STAGES − 2` — it pops
the job sitting in queue 0, contrary to the claim that `take_terminal(s)` with
`s < N_STAGES − 2` does not pop from `queue[s]`. -/
theorem c7_counterexample :
    StepQueue.get_done_job sqStage0 0 =
      .ok (some (0, mkJob 1), { _queues := [{ }, { }, { }, { }, { }, { }] }) ∧
    (0 : Nat) < sqStage0._queues.length - 2 := by
  constructor
  · simp [StepQueue.get_done_job, sqStage0, pyIndex, PriorityQueue.get_next_job,
      heappop, Except.map]
  · simp [sqStage0]


/-! ## Characterisation of the longest-queue stage selection -/

theorem selectLoop_facts :
    ∀ (rest : List Nat) (i larger : Nat) (best : Option Nat),
      ((∀ j, j < rest.length → rest.getD j 0 ≤ larger) →
        selectLoop rest i larger best = best) ∧
      (selectLoop rest i larger best = none →
        best = none ∧ ∀ j, j < rest.length → rest.getD j 0 ≤ larger) ∧
      (∀ s, selectLoop rest i larger best = some s →
        (best = some s ∧ ∀ j, j < rest.length → rest.getD j 0 ≤ larger) ∨
        (∃ jj, jj < rest.length ∧ s = i + jj ∧ larger < rest.getD jj 0 ∧
          (∀ k, k < rest.length → rest.getD k 0 ≤ rest.getD jj 0) ∧
          (∀ k, k < jj → rest.getD k 0 < rest.getD jj 0))) := by
  intro rest
  induction rest with
  | nil =>
    intro i larger best
    refine ⟨fun _ => rfl, fun h => ⟨h, ?_⟩, fun s h => Or.inl ⟨h, ?_⟩⟩ <;>
      (intro j hj; simp at hj)
  | cons v tl ih =>
    intro i larger best
    by_cases hv : larger < v
    · have hrun : selectLoop (v :: tl) i larger best = selectLoop tl (i + 1) v (some i) := by
        simp [selectLoop, hv]
      refine ⟨?_, ?_, ?_⟩
      · intro hall
        exact absurd (hall 0 (by simp)) (by simpa using hv)
      · intro hres
        rw [hrun] at hres
        exact absurd ((ih (i + 1) v (some i)).2.1 hres).1 (by simp)
      · intro s hres
        rw [hrun] at hres
        rcases (ih (i + 1) v (some i)).2.2 s hres with ⟨hbs, hall⟩ | ⟨jj, hjl, hs, hlt, hall, hpre⟩
        · refine Or.inr ⟨0, by simp, ?_, by simpa using hv, ?_, ?_⟩
          · have : i = s := by simpa using hbs
            omega
          · intro k hk
            match k with
            | 0 => simp
            | k' + 1 =>
              simp only [List.getD_cons_succ, List.getD_cons_zero]
              exact hall k' (by simpa using hk)
          · intro k hk; omega
        · refine Or.inr ⟨jj + 1, by simpa using hjl, by omega, ?_, ?_, ?_⟩
          · simpa using lt_trans hv hlt
          · intro k hk
            match k with
            | 0 =>
              simp only [List.getD_cons_succ, List.getD_cons_zero]
              exact le_of_lt hlt
            | k' + 1 =>
              simp only [List.getD_cons_succ]
              exact hall k' (by simpa using hk)
          · intro k hk
            match k with
            | 0 =>
              simp only [List.getD_cons_succ, List.getD_cons_zero]
              exact hlt
            | k' + 1 =>
              simp only [List.getD_cons_succ]
              exact hpre k' (by omega)
    · have hrun : selectLoop (v :: tl) i larger best = selectLoop tl (i + 1) larger best := by
        simp [selectLoop, hv]
      have hvle : v ≤ larger := le_of_not_lt hv
      refine ⟨?_, ?_, ?_⟩
      · intro hall
        rw [hrun]
        exact (ih (i + 1) larger best).1 fun j hj => hall (j + 1) (by simpa using hj)
      · intro hres
        rw [hrun] at hres
        obtain ⟨hb, hall⟩ := (ih (i + 1) larger best).2.1 hres
        refine ⟨hb, ?_⟩
        intro j hj
        match j with
        | 0 => simpa using hvle
        | j' + 1 =>
          simp only [List.getD_cons_succ]
          exact hall j' (by simpa using hj)
      · intro s hres
        rw [hrun] at hres
        rcases (ih (i + 1) larger best).2.2 s hres with ⟨hbs, hall⟩ | ⟨jj, hjl, hs, hlt, hall, hpre⟩
        · refine Or.inl ⟨hbs, ?_⟩
          intro j hj
          match j with
          | 0 => simpa using hvle
          | j' + 1 =>
            simp only [List.getD_cons_succ]
            exact hall j' (by simpa using hj)
        · refine Or.inr ⟨jj + 1, by simpa using hjl, by omega, by simpa using hlt, ?_, ?_⟩
          · intro k hk
            match k with
            | 0 =>
              simp only [List.getD_cons_succ, List.getD_cons_zero]
              exact le_trans hvle (le_of_lt hlt)
            | k' + 1 =>
              simp only [List.getD_cons_succ]
              exact hall k' (by simpa using hk)
          · intro k hk
            match k with
            | 0 =>
              simp only [List.getD_cons_succ, List.getD_cons_zero]
              exact lt_of_le_of_lt hvle hlt
            | k' + 1 =>
              simp only [List.getD_cons_succ]
              exact hpre k' (by omega)

theorem selVals_length (qs : List PriorityQueue) :
    ((qs.take (qs.length - 2)).map PriorityQueue.get_length).length = qs.length - 2 := by
  rw [List.length_map, List.length_take]
  omega

theorem selVals_getD (qs : List PriorityQueue) (t : Nat) (ht : t < qs.length - 2) :
    ((qs.take (qs.length - 2)).map PriorityQueue.get_length).getD t 0 = qLen qs t := by
  have h1 : t < (qs.take (qs.length - 2)).length := by rw [List.length_take]; omega
  have h2 : t < qs.length := by omega
  rw [List.getD_eq_getElem?_getD, List.getElem?_map, List.getElem?_eq_getElem h1]
  simp [List.getElem_take, qLen, List.getD_eq_getElem?_getD, List.getElem?_eq_getElem h2]

theorem selectStep_none_iff (qs : List PriorityQueue) :
    selectStep qs = none ↔ ∀ t, t < qs.length - 2 → qLen qs t = 0 := by
  constructor
  · intro h t ht
    have hall := ((selectLoop_facts _ 0 0 none).2.1 h).2 t (by rw [selVals_length]; omega)
    rw [selVals_getD qs t ht] at hall
    omega
  · intro h
    apply (selectLoop_facts _ 0 0 none).1
    intro j hj
    rw [selVals_length] at hj
    rw [selVals_getD qs j hj, h j hj]

theorem selectStep_best (qs : List PriorityQueue) (s : Nat)
    (h : selectStep qs = some s) : IsBestStage qs s := by
  rcases (selectLoop_facts _ 0 0 none).2.2 s h with ⟨hc, _⟩ | ⟨jj, hjl, hs, hlt, hall, hpre⟩
  · simp at hc
  · rw [selVals_length] at hjl
    have hsj : s = jj := by omega
    subst hsj
    refine ⟨hjl, ?_, ?_, ?_⟩
    · have := hlt
      rwa [selVals_getD qs s hjl] at this
    · intro t ht
      have := hall t (by rw [selVals_length]; omega)
      rwa [selVals_getD qs t ht, selVals_getD qs s hjl] at this
    · intro t ht
      have := hpre t ht
      rwa [selVals_getD qs t (by omega), selVals_getD qs s hjl] at this

/-! ## Rewriting interfaces for the StepQueue operations -/

theorem pq_get_next_job_of_pop (q : PriorityQueue) (e : Entry) (rest : List Entry)
    (h : heappop q._queue = .ok (e, rest)) :
    q.get_next_job = .ok (some e.2, { _queue := rest }) := by
  obtain ⟨l⟩ := q
  cases l with
  | nil => simp [heappop] at h
  | cons x xs => simp [PriorityQueue.get_next_job, h, Except.map]

theorem popAt_eq (sq : StepQueue) (s : Int) (idx : Nat)
    (hidx : pyIndex sq._queues.length s = .ok idx) :
    StepQueue.popAt sq s =
      match (sq._queues.getD idx { }).get_next_job with
      | .error e => .error e
      | .ok (none, _) => .ok (none, { sq with pause := true })
      | .ok (some job, q') =>
        .ok (some (s, job), { sq with _queues := sq._queues.set idx q' }) := by
  unfold StepQueue.popAt
  rw [hidx]

theorem get_next_job_none_sel (sq : StepQueue) (n : Nat)
    (hsel : selectStep sq._queues = some n) :
    StepQueue.get_next_job sq none = StepQueue.popAt sq (n : Int) := by
  unfold StepQueue.get_next_job
  rw [hsel]

theorem get_next_job_none_empty (sq : StepQueue)
    (hsel : selectStep sq._queues = none) :
    StepQueue.get_next_job sq none = .ok (none, { sq with pause := true }) := by
  unfold StepQueue.get_next_job
  rw [hsel]

theorem pyIndex_coe (len n : Nat) (hn : n < len) :
    pyIndex len (n : Int) = .ok n := by
  simp only [pyIndex]
  rw [if_pos (by constructor <;> omega)]
  simp

theorem get_done_job_eq (sq : StepQueue) (s : Int) (idx : Nat)
    (hidx : pyIndex sq._queues.length s = .ok idx) :
    StepQueue.get_done_job sq s =
      match (sq._queues.getD idx { }).get_next_job with
      | .error e => .error e
      | .ok (none, _) => .ok (none, { sq with pause_done := true })
      | .ok (some job, q') =>
        .ok (some (s, job), { sq with _queues := sq._queues.set idx q' }) := by
  unfold StepQueue.get_done_job
  rw [hidx]

/-- C7 (amended): `take_normal` with no explicit stage (`get_next_job(None)`) never
returns a job from a terminal stage — the selection scans only
`queues[: N_STAGES − 2]` — but `get_done_job` performs no bounds check on its stage
argument: for any in-range stage `s`, terminal or not, it pops `queue[s]`. -/
theorem c7_stage_discipline :
    (∀ (sq : StepQueue) (s : Int) (j : Job) (sq' : StepQueue),
      StepQueue.get_next_job sq none = .ok (some (s, j), sq') →
      ∃ n : Nat, s = (n : Int) ∧ n < sq._queues.length - 2) ∧
    (∀ (sq : StepQueue) (n : Nat), n < sq._queues.length →
      ∀ (e : Entry) (rest : List Entry),
        heappop (sq._queues.getD n { })._queue = .ok (e, rest) →
        StepQueue.get_done_job sq (n : Int) =
          .ok (some ((n : Int), e.2),
            { sq with _queues := sq._queues.set n { _queue := rest } })) := by
  constructor
  · intro sq s j sq' heq
    cases hsel : selectStep sq._queues with
    | none =>
      rw [get_next_job_none_empty sq hsel] at heq
      exact absurd heq (by simp)
    | some n =>
      have hn : n < sq._queues.length - 2 := (selectStep_best _ n hsel).1
      rw [get_next_job_none_sel sq n hsel,
        popAt_eq sq _ n (pyIndex_coe _ n (by omega))] at heq
      split at heq
      · exact absurd heq (by simp)
      · exact absurd heq (by simp)
      · simp only [Except.ok.injEq, Prod.mk.injEq, Option.some.injEq] at heq
        exact ⟨n, heq.1.1.symm, hn⟩
  · intro sq n hn e rest hpop
    rw [get_done_job_eq sq _ n (pyIndex_coe _ n hn),
      pq_get_next_job_of_pop _ e rest hpop]

theorem c7_witness :
    (∃ n : Nat, (0 : Int) = (n : Int) ∧ n < sqStage0._queues.length - 2) ∧
    StepQueue.get_done_job sqStage5 ((5 : Nat) : Int) =
      .ok (some (((5 : Nat) : Int), mkJob 3),
        { sqStage5 with _queues := sqStage5._queues.set 5 { _queue := [] } }) := by
  constructor
  · refine c7_stage_discipline.1 sqStage0 0 (mkJob 1)
      { _queues := [{ }, { }, { }, { }, { }, { }], pause := false, pause_done := false } ?_
    simp [StepQueue.get_next_job, selectStep, selectLoop, sqStage0, StepQueue.popAt,
      pyIndex, PriorityQueue.get_next_job, PriorityQueue.get_length, heappop, Except.map]
  · exact c7_stage_discipline.2 sqStage5 5 (by simp [sqStage5]) (5, mkJob 3) []
      (by simp [sqStage5, heappop])

/-- C3: `take_normal()` with no explicit stage considers only the non-terminal
queues (index `< N_STAGES − 2`): when they are all empty it sets `pause` and
returns `None` leaving every queue untouched; otherwise the selected stage is the
one with the greatest length, ties broken by lowest index (`IsBestStage`), and one
job is popped from it and returned as `(stage, job)`. -/
theorem c3_take_normal (sq : StepQueue) :
    ((∀ t, t < sq._queues.length - 2 → qLen sq._queues t = 0) →
      StepQueue.get_next_job sq none = .ok (none, { sq with pause := true })) ∧
    ((∃ t, t < sq._queues.length - 2 ∧ 0 < qLen sq._queues t) →
      ∃ n, selectStep sq._queues = some n ∧ IsBestStage sq._queues n) ∧
    (∀ n, selectStep sq._queues = some n →
      IsBestStage sq._queues n ∧
      ∀ (e : Entry) (rest : List Entry),
        heappop (sq._queues.getD n { })._queue = .ok (e, rest) →
        StepQueue.get_next_job sq none =
          .ok (some ((n : Int), e.2),
            { sq with _queues := sq._queues.set n { _queue := rest } })) := by
  refine ⟨?_, ?_, ?_⟩
  · intro hempty
    exact get_next_job_none_empty sq ((selectStep_none_iff sq._queues).mpr hempty)
  · intro ⟨t, ht, hpos⟩
    cases hsel : selectStep sq._queues with
    | none =>
      have := (selectStep_none_iff sq._queues).mp hsel t ht
      omega
    | some n => exact ⟨n, rfl, selectStep_best _ n hsel⟩
  · intro n hsel
    have hbest := selectStep_best _ n hsel
    refine ⟨hbest, ?_⟩
    intro e rest hpop
    rw [get_next_job_none_sel sq n hsel,
      popAt_eq sq _ n (pyIndex_coe _ n (by have := hbest.1; omega)),
      pq_get_next_job_of_pop _ e rest hpop]

theorem c3_witness :
    StepQueue.get_next_job sqStage5 none = .ok (none, { sqStage5 with pause := true }) ∧
    StepQueue.get_next_job sqStage0 none =
      .ok (some (((0 : Nat) : Int), mkJob 1),
        { sqStage0 with _queues := sqStage0._queues.set 0 { _queue := [] } }) := by
  constructor
  · exact (c3_take_normal sqStage5).1 (by decide)
  · exact ((c3_take_normal sqStage0).2.2 0 (by decide)).2 (5, mkJob 1) []
      (by simp [sqStage0, heappop])

/-- C8 counterexample: `enqueue` is *not* bounds-checked to `[0, N_STAGES)`: a call
with stage `−1` — outside that range — does not raise and places the job in the
*last* queue (Python negative indexing), clearing both wake flags. -/
theorem c8_counterexample :
    StepQueue.add_job (emptySQ 6) (-1) (mkJob 2) =
      .ok { _queues := [{ }, { }, { }, { }, { }, { _queue := [(5, mkJob 2)] }] } ∧
    ¬ (0 ≤ (-1 : Int) ∧ (-1 : Int) < ((emptySQ 6)._queues.length : Int)) := by
  constructor
  · simp [emptySQ, StepQueue.add_job, pyIndex, PriorityQueue.add_job, heappush,
      pySiftdown, siftdownLoop, Except.map, List.replicate]
  · decide

theorem add_job_eq (sq : StepQueue) (step : Int) (job : Job) (priority : Int) (idx : Nat)
    (hidx : pyIndex sq._queues.length step = .ok idx) :
    StepQueue.add_job sq step job priority =
      match (sq._queues.getD idx { }).add_job job priority with
      | .error e => .error e
      | .ok q' => .ok { _queues := sq._queues.set idx q',
                        pause := false, pause_done := false } := by
  unfold StepQueue.add_job
  rw [hidx]

/-- C8 (amended): `add_job(step, job, priority)` places the job in `queue[step]` and
clears both wake flags for `step ∈ [0, N_STAGES)`; there is no explicit bounds
check: `step ∈ [−N_STAGES, 0)` wraps around and places the job in
`queue[step + N_STAGES]` (flags likewise cleared), and any other step raises
`IndexError` before any queue is touched or flag cleared. -/
theorem c8_add_job_bounds (sq : StepQueue) (step : Int) (job : Job) (priority : Int) :
    (∀ (hin : 0 ≤ step ∧ step < (sq._queues.length : Int)),
      ∀ q', (sq._queues.getD step.toNat { }).add_job job priority = .ok q' →
        StepQueue.add_job sq step job priority =
          .ok { _queues := sq._queues.set step.toNat q',
                pause := false, pause_done := false }) ∧
    ((step < -(sq._queues.length : Int) ∨ (sq._queues.length : Int) ≤ step) →
      StepQueue.add_job sq step job priority = .error .indexError) ∧
    (∀ (hneg : -(sq._queues.length : Int) ≤ step ∧ step < 0),
      ∀ q', (sq._queues.getD (step + sq._queues.length).toNat { }).add_job job priority = .ok q' →
        StepQueue.add_job sq step job priority =
          .ok { _queues := sq._queues.set (step + sq._queues.length).toNat q',
                pause := false, pause_done := false }) := by
  refine ⟨?_, ?_, ?_⟩
  · intro hin q' hq'
    have hidx : pyIndex sq._queues.length step = .ok step.toNat := by
      simp only [pyIndex]
      rw [if_pos hin]
    rw [add_job_eq sq step job priority step.toNat hidx, hq']
  · intro hout
    have hidx : pyIndex sq._queues.length step = .error .indexError := by
      simp only [pyIndex]
      rw [if_neg (by omega), if_neg (by omega)]
    unfold StepQueue.add_job
    rw [hidx]
  · intro hneg q' hq'
    have hidx : pyIndex sq._queues.length step = .ok (step + sq._queues.length).toNat := by
      simp only [pyIndex]
      rw [if_neg (by omega), if_pos hneg]
    rw [add_job_eq sq step job priority _ hidx, hq']

theorem c8_witness :
    StepQueue.add_job (emptySQ 6) 0 (mkJob 4) 7 =
      .ok { _queues := (emptySQ 6)._queues.set (0 : Int).toNat { _queue := [(7, mkJob 4)] },
            pause := false, pause_done := false } ∧
    StepQueue.add_job (emptySQ 6) 17 (mkJob 4) 5 = .error .indexError ∧
    StepQueue.add_job (emptySQ 6) (-2) (mkJob 4) 5 =
      .ok { _queues := (emptySQ 6)._queues.set ((-2 : Int) + (emptySQ 6)._queues.length).toNat
              { _queue := [(5, mkJob 4)] },
            pause := false, pause_done := false } := by
  refine ⟨?_, ?_, ?_⟩
  · exact (c8_add_job_bounds (emptySQ 6) 0 (mkJob 4) 7).1 (by decide) _
      (by simp [emptySQ, PriorityQueue.add_job, heappush, pySiftdown, siftdownLoop,
        Except.map, List.replicate])
  · exact (c8_add_job_bounds (emptySQ 6) 17 (mkJob 4) 5).2.1 (by decide)
  · exact (c8_add_job_bounds (emptySQ 6) (-2) (mkJob 4) 5).2.2 (by decide) _
      (by simp [emptySQ, PriorityQueue.add_job, heappush, pySiftdown, siftdownLoop,
        Except.map, List.replicate])

/-- C6 counterexample: a run of the delivery loop in which every iteration fails
(transport error from the status request, a job available each time) increments
`failed_tries` to 10 and then leaves the `while failed_tries < 10` loop — the
result is `loopExited`, not a `sys.exit(1)` process termination: `main` has no code
after the loop and never calls `sys.exit` on this path (the non-daemon worker
threads then keep the process alive). -/
theorem c6_counterexample :
    deliveryRun { failed_tries := 0, sq := sqStage5 }
        (List.replicate 11 { ipc := .connError, payloadRaises := false, termRaises := false }) =
      .loopExited { failed_tries := 10, sq := sqStage5 } := by
  simp [deliveryRun, deliveryStep, sqStage5, StepQueue.get_done_job, pyIndex,
    PriorityQueue.get_next_job, heappop, StepQueue.add_job, PriorityQueue.add_job,
    heappush, pySiftdown, siftdownLoop, Except.map, List.replicate]

/-- C6 (amended): after 10 consecutive delivery failures the `while
failed_tries < 10` loop terminates — as soon as the counter reaches 10 the guard
fails and the run ends in `loopExited`, with no `sys.exit` — and under an
always-failing sink a run starting below the threshold reaches exactly that state. -/
theorem c6_ten_failures_exit_loop :
    (∀ (st : DState) (os : List IterOracle), 10 ≤ st.failed_tries →
      deliveryRun st os = .loopExited st) ∧
    (∀ (os : List IterOracle) (f : Nat), f < 10 →
      (∀ o ∈ os, o.ipc = .connError ∧ o.payloadRaises = false) →
      10 - f ≤ os.length →
      deliveryRun { failed_tries := f, sq := sqStage5 } os =
        .loopExited { failed_tries := 10, sq := sqStage5 }) := by
  have hguard : ∀ (st : DState) (os : List IterOracle), 10 ≤ st.failed_tries →
      deliveryRun st os = .loopExited st := by
    intro st os hst
    cases os with
    | nil => simp only [deliveryRun]; rw [if_neg (by omega)]
    | cons o os => simp only [deliveryRun]; rw [if_neg (by omega)]
  have hstep : ∀ (f : Nat) (o : IterOracle), o.ipc = .connError →
      deliveryStep { failed_tries := f, sq := sqStage5 } o =
        .next { failed_tries := f + 1, sq := sqStage5 } := by
    intro f o ho
    obtain ⟨ipc, pr, tr⟩ := o
    simp only [IterOracle.mk.injEq] at ho
    subst ho
    simp [deliveryStep, sqStage5, StepQueue.get_done_job, pyIndex,
      PriorityQueue.get_next_job, heappop, StepQueue.add_job, PriorityQueue.add_job,
      heappush, pySiftdown, siftdownLoop, Except.map]
  refine ⟨hguard, ?_⟩
  intro os
  induction os with
  | nil => intro f hf hall hlen; exfalso; simp at hlen; omega
  | cons o os ih =>
    intro f hf hall hlen
    have ho := hall o (List.mem_cons_self o os)
    have hone : deliveryRun { failed_tries := f, sq := sqStage5 } (o :: os) =
        deliveryRun { failed_tries := f + 1, sq := sqStage5 } os := by
      simp only [deliveryRun]
      rw [if_pos (show ({ failed_tries := f, sq := sqStage5 } : DState).failed_tries < 10 from hf)]
      rw [hstep f o ho.1]
    rw [hone]
    by_cases hf1 : f + 1 < 10
    · exact ih (f + 1) hf1 (fun o' ho' => hall o' (List.mem_cons_of_mem o ho')) (by
        simp only [List.length_cons] at hlen; omega)
    · have hf10 : f + 1 = 10 := by omega
      rw [hf10]
      exact hguard _ os (by simp)

theorem c6_witness :
    deliveryRun { failed_tries := 0, sq := sqStage5 }
        (List.replicate 10 { ipc := .connError, payloadRaises := false, termRaises := false }) =
      .loopExited { failed_tries := 10, sq := sqStage5 } :=
  c6_ten_failures_exit_loop.2 _ 0 (by omega)
    (by
      intro o ho
      rw [List.eq_of_mem_replicate ho]
      exact ⟨rfl, rfl⟩)
    (by simp)


set_option maxRecDepth 8192 in
theorem runCasesLoop_broken (isAnt : Bool) :
    ∀ (cs : List TestCase) (i : Nat) (job : Job), job.broken = true →
      ∀ r, runCasesLoop isAnt cs i job = some r → r.1.broken = true := by
  intro cs
  induction cs with
  | nil =>
    intro i job hb r hr
    simp [runCasesLoop] at hr
  | cons tc rest ih =>
    intro i job hb r hr
    simp only [runCasesLoop] at hr
    split at hr <;> (try split at hr) <;> (try split at hr) <;> (try split at hr) <;>
      (try split at hr) <;>
      first
        | (injection hr with h; subst h; rfl)
        | exact ih (i + 1) job hb r hr

/-- C9: `broken` is monotonic — once a job carries `broken = true`, none of the
stage handlers or dispatchers (`generate_project_files`, `compilation_test`,
`running_test`, `chatgpt_consolidation`, `process_job`'s dispatch,
`process_done_job`'s dispatch; `abstraction_test` is covered by the step-3
dispatch, which only writes the score fields) ever resets it to `false`. -/
theorem c9_broken_monotone (job : Job) (hb : job.broken = true) :
    (∀ env : GenEnv, (generate_project_files env job).1.broken = true) ∧
    (∀ env : CompEnv, (compilation_test env job).1.broken = true) ∧
    (∀ env : RunEnv, (running_test env job).1.broken = true) ∧
    (∀ env : GptEnv, (chatgpt_consolidation env job).broken = true) ∧
    (∀ (env : ProcEnv) (step : Int) (out : Job × Int),
      process_job_route env job step = .ok out → out.1.broken = true) ∧
    (∀ (env : GptEnv) (step : Int) (out : Job × Int),
      process_done_job_route env job step = some out → out.1.broken = true) := by
  have hgenB : ∀ env : GenEnv, (generate_project_files env job).1.broken = true := by
    intro env
    unfold generate_project_files
    split <;> first | rfl | exact hb
  have hcompB : ∀ env : CompEnv, (compilation_test env job).1.broken = true := by
    intro env
    unfold compilation_test
    split <;> (try split) <;> (try split) <;> (try split) <;> first | rfl | exact hb
  have hrunB : ∀ env : RunEnv, (running_test env job).1.broken = true := by
    intro env
    unfold running_test
    split
    · rfl
    · cases hr : runCasesLoop (decide (job.project_type = some "Ant")) env.cases 0 job with
      | some r =>
        exact runCasesLoop_broken (decide (job.project_type = some "Ant")) env.cases 0 job hb r hr
      | none =>
        by_cases hc : env.cases.length = 0 <;> simp [hc, hb]
  have hgptB : ∀ env : GptEnv, (chatgpt_consolidation env job).broken = true := by
    intro env
    unfold chatgpt_consolidation
    split <;> (try split) <;> first | rfl | exact hb
  refine ⟨hgenB, hcompB, hrunB, hgptB, ?_, ?_⟩
  · intro env step out hout
    unfold process_job_route at hout
    split at hout
    · -- step 0
      split at hout <;> injection hout with h <;> subst h
      · rfl
      · exact hgenB env.gen
    · split at hout
      · -- step 1
        split at hout <;> injection hout with h <;> subst h
        · rfl
        · exact hcompB env.comp
      · split at hout
        · -- step 2
          split at hout
          · injection hout with h
            subst h
            exact hrunB env.run
          · split at hout <;> injection hout with h <;> subst h
            · exact hrunB env.run
            · exact hrunB env.run
        · split at hout
          · -- step 3
            split at hout
            · exact absurd hout (by simp)
            · injection hout with h
              subst h
              exact hb
          · injection hout with h
            subst h
            exact hb
  · intro env step out hout
    unfold process_done_job_route at hout
    split at hout
    · injection hout with h
      subst h
      exact hgptB env
    · exact absurd hout (by simp)

theorem c9_witness :
    (generate_project_files ⟨true⟩ { mkJob 9 with broken := true }).1.broken = true ∧
    (compilation_test ⟨["A.java"], false, false, (false, "out")⟩
      { mkJob 9 with broken := true }).1.broken = true ∧
    (running_test ⟨[], false⟩ { mkJob 9 with broken := true }).1.broken = true ∧
    (chatgpt_consolidation ⟨.error ()⟩ { mkJob 9 with broken := true }).broken = true ∧
    ((({ mkJob 9 with broken := true } : Job), (5 : Int)) : Job × Int).1.broken = true ∧
    (((chatgpt_consolidation ⟨.error ()⟩ { mkJob 9 with broken := true }, (5 : Int)) :
      Job × Int)).1.broken = true := by
  have h := c9_broken_monotone { mkJob 9 with broken := true } rfl
  refine ⟨h.1 ⟨true⟩, h.2.1 _, h.2.2.1 _, h.2.2.2.1 _, ?_, ?_⟩
  · exact h.2.2.2.2.1
      ⟨⟨true⟩, ⟨[], false, false, (false, "")⟩, ⟨[], false⟩,
        ⟨[], [], [], fun _ _ => false⟩, ⟨.error ()⟩⟩ 5 _ rfl
  · exact h.2.2.2.2.2 ⟨.error ()⟩ 4 _ rfl

/-- C10: for every job processed at stage 3 with a nonzero `required_total`,
`abstraction_test` returns `score = (found_total / required_total) × 100 − 100`
(`found_total` = sum of literal, non-regex occurrence counts of each required
pattern over the concatenated `.java` sources; `required_total` = sum of declared
weights) together with the banned patterns that matched; `process_job` writes the
score and banned matches into the job and re-enqueues it at stage 5, skipping the
advisory stage 4. -/
theorem c10_abstraction_scoring (env : ProcEnv) (job : Job) (sq : StepQueue)
    (h : (env.abst.required.map Prod.snd).sum ≠ 0) :
    ∃ (score : ℚ) (banned : List String),
      abstraction_test env.abst job = .ok (score, banned) ∧
      score = ((((env.abst.required.map fun kv =>
            countOcc kv.1 env.abst.totalCode).sum : ℚ) /
          (((env.abst.required.map Prod.snd).sum : Int) : ℚ)) * 100) - 100 ∧
      banned = env.abst.banned.filter (fun v => env.abst.research v env.abst.totalCode) ∧
      process_job_route env job 3 =
        .ok ({ job with abstraction_score := some score, banned_found := some banned }, 5) ∧
      process_job env job 3 sq =
        StepQueue.add_job sq 5
          { job with abstraction_score := some score, banned_found := some banned } := by
  have hmm : ((env.abst.required.map fun kv =>
      (kv.1, countOcc kv.1 env.abst.totalCode)).map Prod.snd) =
      env.abst.required.map fun kv => countOcc kv.1 env.abst.totalCode := by
    rw [List.map_map]
    rfl
  have habs : abstraction_test env.abst job = .ok
      (((((env.abst.required.map fun kv =>
            countOcc kv.1 env.abst.totalCode).sum : ℚ) /
          (((env.abst.required.map Prod.snd).sum : Int) : ℚ)) * 100) - 100,
        env.abst.banned.filter fun v => env.abst.research v env.abst.totalCode) := by
    simp only [abstraction_test]
    rw [if_neg h, hmm]
  have hroute : process_job_route env job 3 =
      .ok ({ job with
              abstraction_score := some (((((env.abst.required.map fun kv =>
                    countOcc kv.1 env.abst.totalCode).sum : ℚ) /
                  (((env.abst.required.map Prod.snd).sum : Int) : ℚ)) * 100) - 100),
              banned_found := some (env.abst.banned.filter fun v =>
                env.abst.research v env.abst.totalCode) }, 5) := by
    unfold process_job_route
    rw [if_neg (by norm_num : ¬(3 : Int) = 0), if_neg (by norm_num : ¬(3 : Int) = 1),
      if_neg (by norm_num : ¬(3 : Int) = 2), if_pos (rfl : (3 : Int) = 3), habs]
    rfl
  refine ⟨_, _, habs, rfl, rfl, hroute, ?_⟩
  unfold process_job
  rw [hroute]

theorem c10_witness :
    ∃ (score : ℚ) (banned : List String),
      abstraction_test (⟨[("for", 2)], ["x"], ["for for"], fun _ _ => false⟩ : AbsEnv)
        (mkJob 1) = .ok (score, banned) ∧
      score = (((((⟨[("for", 2)], ["x"], ["for for"], fun _ _ => false⟩ :
            AbsEnv).required.map fun kv =>
            countOcc kv.1 (⟨[("for", 2)], ["x"], ["for for"], fun _ _ => false⟩ :
              AbsEnv).totalCode).sum : ℚ) /
          ((((⟨[("for", 2)], ["x"], ["for for"], fun _ _ => false⟩ :
            AbsEnv).required.map Prod.snd).sum : Int) : ℚ)) * 100) - 100 ∧
      banned = (⟨[("for", 2)], ["x"], ["for for"], fun _ _ => false⟩ :
          AbsEnv).banned.filter (fun v =>
        (⟨[("for", 2)], ["x"], ["for for"], fun _ _ => false⟩ : AbsEnv).research v
          (⟨[("for", 2)], ["x"], ["for for"], fun _ _ => false⟩ : AbsEnv).totalCode) ∧
      process_job_route
        ⟨⟨true⟩, ⟨[], false, false, (false, "")⟩, ⟨[], false⟩,
          ⟨[("for", 2)], ["x"], ["for for"], fun _ _ => false⟩, ⟨.error ()⟩⟩
        (mkJob 1) 3 =
        .ok ({ mkJob 1 with abstraction_score := some score, banned_found := some banned }, 5) ∧
      process_job
        ⟨⟨true⟩, ⟨[], false, false, (false, "")⟩, ⟨[], false⟩,
          ⟨[("for", 2)], ["x"], ["for for"], fun _ _ => false⟩, ⟨.error ()⟩⟩
        (mkJob 1) 3 (emptySQ 6) =
        StepQueue.add_job (emptySQ 6) 5
          { mkJob 1 with abstraction_score := some score, banned_found := some banned } :=
  c10_abstraction_scoring
    ⟨⟨true⟩, ⟨[], false, false, (false, "")⟩, ⟨[], false⟩,
      ⟨[("for", 2)], ["x"], ["for for"], fun _ _ => false⟩, ⟨.error ()⟩⟩
    (mkJob 1) (emptySQ 6) (by decide)

/-! ## Characterisation of the compare_results matcher -/

theorem bMatch_gt (text pat : List Char) (i : Nat) (hi : text.length < i) :
    bMatch text pat i = false := by
  unfold bMatch
  cases pat with
  | nil =>
    have h1 : text[i - 1]? = none := List.getElem?_eq_none (by omega)
    have h0 : ¬ i = 0 := by omega
    simp [List.getD_eq_getElem?_getD, h1, wordChar, h0]
  | cons c p =>
    have h2 : text.drop i = [] := List.drop_eq_nil_of_le (by omega)
    simp [h2, lcPre]

theorem searchFrom_some (text pat : List Char) :
    ∀ (k i r : Nat), text.length + 1 - i ≤ k → searchFrom text pat i = some r →
      i ≤ r ∧ bMatch text pat r = true ∧
        ∀ j, i ≤ j → j < r → bMatch text pat j = false := by
  intro k
  induction k with
  | zero =>
    intro i r hk hs
    rw [searchFrom, dif_neg (by omega)] at hs
    exact absurd hs (by simp)
  | succ k ih =>
    intro i r hk hs
    by_cases hi : i ≤ text.length
    · rw [searchFrom, dif_pos hi] at hs
      by_cases hm : bMatch text pat i = true
      · rw [if_pos hm] at hs
        obtain rfl : i = r := by simpa using hs
        exact ⟨le_refl i, hm, fun j h1 h2 => absurd (lt_of_le_of_lt h1 h2) (lt_irrefl i)⟩
      · rw [if_neg hm] at hs
        obtain ⟨h1, h2, h3⟩ := ih (i + 1) r (by omega) hs
        refine ⟨by omega, h2, ?_⟩
        intro j hj1 hj2
        by_cases hji : j = i
        · subst hji
          exact Bool.not_eq_true _ ▸ (by simpa using hm)
        · exact h3 j (by omega) hj2
    · rw [searchFrom, dif_neg (by omega)] at hs
      exact absurd hs (by simp)

theorem searchFrom_none (text pat : List Char) :
    ∀ (k i : Nat), text.length + 1 - i ≤ k → searchFrom text pat i = none →
      ∀ j, i ≤ j → bMatch text pat j = false := by
  intro k
  induction k with
  | zero =>
    intro i hk hs j hj
    exact bMatch_gt text pat j (by omega)
  | succ k ih =>
    intro i hk hs j hj
    by_cases hi : i ≤ text.length
    · rw [searchFrom, dif_pos hi] at hs
      by_cases hm : bMatch text pat i = true
      · rw [if_pos hm] at hs
        exact absurd hs (by simp)
      · rw [if_neg hm] at hs
        by_cases hji : j = i
        · subst hji
          simpa using hm
        · exact ih (i + 1) (by omega) hs j (by omega)
    · exact bMatch_gt text pat j (by omega)

theorem reSearch_eq_some_iff (text pat : List Char) (r : Nat) :
    reSearch text pat = some r ↔
      (bMatch text pat r = true ∧ ∀ j, j < r → bMatch text pat j = false) := by
  constructor
  · intro h
    obtain ⟨_, h2, h3⟩ := searchFrom_some text pat (text.length + 1) 0 r (by omega) h
    exact ⟨h2, fun j hj => h3 j (by omega) hj⟩
  · intro ⟨hm, hmin⟩
    cases hs : reSearch text pat with
    | none =>
      have := searchFrom_none text pat (text.length + 1) 0 (by omega) hs r (by omega)
      rw [hm] at this
      exact absurd this (by simp)
    | some r' =>
      obtain ⟨_, h2, h3⟩ := searchFrom_some text pat (text.length + 1) 0 r' (by omega) hs
      rcases lt_trichotomy r' r with hlt | heq | hgt
      · have := hmin r' hlt
        rw [h2] at this
        exact absurd this (by simp)
      · rw [heq]
      · have := h3 r (by omega) hgt
        rw [hm] at this
        exact absurd this (by simp)

theorem compareGo_iff_specConsume :
    ∀ (expected : List String) (text : List Char),
      compareGo expected text = true ↔ SpecConsume expected text := by
  intro expected
  induction expected with
  | nil => intro text; simp [compareGo, SpecConsume]
  | cons e rest ih =>
    intro text
    constructor
    · intro h
      cases hs : reSearch text e.data with
      | none =>
        rw [compareGo, hs] at h
        exact absurd h (by simp)
      | some i =>
        rw [compareGo, hs] at h
        obtain ⟨hm, hmin⟩ := (reSearch_eq_some_iff text e.data i).mp hs
        exact ⟨i, hm, hmin, (ih _).mp h⟩
    · intro ⟨i, hm, hmin, hrest⟩
      have hs : reSearch text e.data = some i :=
        (reSearch_eq_some_iff text e.data i).mpr ⟨hm, hmin⟩
      rw [compareGo, hs]
      exact (ih _).mpr hrest

/-- C4: `compare_results(expected, obtained_lines)` returns true iff, treating the
obtained output as a single newline-joined string and processing the expected
values in order, every expected value has a (first, leftmost) case-insensitive
literal match with word boundaries — no alphanumeric or underscore character
immediately before or after — each match being cut out of the text before the next
expected value is searched (`SpecConsume` states that matching rule; the result
depends only on this find-and-consume process, so output around and between the
matched spans never causes a false result). -/
theorem c4_compare_results_spec (expected obtained_lines : List String) :
    compare_results expected obtained_lines = true ↔
      SpecConsume expected (String.intercalate "\n" obtained_lines).data :=
  compareGo_iff_specConsume expected (String.intercalate "\n" obtained_lines).data
